import Mathlib

/-!
Verification of the yt-rank-bot repository (src/yt_bot.py, src/sheets_analysis.py).

Shallow embedding conventions:
  - Python strings are modelled as Lean `String` (with `List Char` cores where
    induction over characters is needed; `String.data` bridges the two).
  - The network (YouTube search/videos API, the HEAD probe of
    `is_shorts_by_url`, `dateutil.relativedelta`, and the wall clock) is an
    explicit environment parameter: a call that may raise is an `Option`
    (`none` = the call raised and the surrounding `except` fires).
  - Python exceptions that the source does NOT catch (KeyError on a column
    dict, IndexError on a short row) are modelled with `Except String`.
  - `print` diagnostics that the claims talk about are returned as a log
    (`List String`); `time.sleep` is not modelled (no claim mentions time).
-/

namespace YT

/-! ## Character and Python-string helpers -/

/-- Python whitespace (the set stripped by `str.strip` and matched by `\s`). -/
def isPySpace (c : Char) : Bool :=
  c == ' ' || c == '\t' || c == '\n' || c == '\r' || c == '\x0b' || c == '\x0c'

/-- Python `str.strip()` on a character list. -/
def pyStripL (s : List Char) : List Char :=
  ((s.dropWhile isPySpace).reverse.dropWhile isPySpace).reverse

/-- Whether `pat` is a prefix of `s` (by characters). -/
def startsWith : List Char → List Char → Bool
  | [], _ => true
  | _ :: _, [] => false
  | p :: ps, c :: cs => p == c && startsWith ps cs

/-- Whether matching `pat` against the start of `s` hits an actual character
mismatch inside `s` (running out of characters is not a clash). -/
def clashes : List Char → List Char → Bool
  | [], _ => false
  | _ :: _, [] => false
  | p :: ps, c :: cs => p != c || clashes ps cs

/-- Every nonempty suffix of `s` clashes with `pat`: no occurrence of `pat`
can start inside `s`, whatever text follows `s`. -/
def allClash (pat : List Char) : List Char → Bool
  | [] => true
  | c :: rest => clashes pat (c :: rest) && allClash pat rest

/-- Split at the first occurrence of `pat`: returns the text before and after
it, or `none` when `pat` does not occur. -/
def splitFirst (pat : List Char) : List Char → Option (List Char × List Char)
  | [] => if pat = [] then some ([], []) else none
  | c :: rest =>
    if startsWith pat (c :: rest) then some ([], (c :: rest).drop pat.length)
    else (splitFirst pat rest).map (fun pr => (c :: pr.1, pr.2))

/-- Python `pat in s` (substring containment). -/
def occursIn (pat : List Char) : List Char → Bool
  | [] => startsWith pat []
  | c :: rest => startsWith pat (c :: rest) || occursIn pat rest

/-- Python `s.split(ch)[0]` for a one-character separator. -/
def takeBefore (ch : Char) (s : List Char) : List Char :=
  s.takeWhile (fun x => x != ch)

/-- Python `s.split(pat)[1]` for a multi-character separator, assuming
`pat in s`: the segment between the first and the second (non-overlapping)
occurrence of `pat`, or everything after the first occurrence when there is
no second one. Returns `[]` in the unreachable not-found case. -/
def pySplitSecond (pat s : List Char) : List Char :=
  match splitFirst pat s with
  | none => []
  | some (_, post) =>
    match splitFirst pat post with
    | none => post
    | some (mid, _) => mid

/-- Numeric value of a digit list (most significant first). -/
def digitsVal (ds : List Char) : Nat :=
  ds.foldl (fun n c => n * 10 + (c.toNat - 48)) 0

/-- Python `int(s)`: strip whitespace, optional sign, one or more digits;
`none` when `int` would raise `ValueError`. -/
def pyInt (s : String) : Option Int :=
  let t := pyStripL s.data
  let pr : Int × List Char :=
    match t with
    | '+' :: r => (1, r)
    | '-' :: r => (-1, r)
    | r => (1, r)
  if pr.2 ≠ [] ∧ pr.2.all Char.isDigit then some (pr.1 * (digitsVal pr.2 : Int))
  else none

/-- Python `str.lower()` (ASCII-relevant part, as used on URLs). -/
def toLowerL (s : List Char) : List Char := s.map Char.toLower

/-! ## time_ago (src/yt_bot.py lines 42-61)

`datetime.strptime(published_date, "%Y-%m-%dT%H:%M:%SZ")` is modelled by
`pyStrptimeZ`, reproducing CPython strptime regexes for %Y, %m, %d, %H, %M,
%S, the literal separators, the whole-string match requirement, and the
`datetime` constructor validity checks (year >= 1, day fits the month,
seconds <= 59). `dateutil.relativedelta` is an external library and is an
abstract parameter producing the component record the source reads. -/

structure PyDateTime where
  year : Nat
  month : Nat
  day : Nat
  hour : Nat
  minute : Nat
  second : Nat
deriving DecidableEq, Repr

structure RelDelta where
  years : Int
  months : Int
  days : Int
  hours : Int
  minutes : Int
deriving DecidableEq, Repr

def inRange (c lo hi : Char) : Bool := decide (lo ≤ c ∧ c ≤ hi)

def digitV (c : Char) : Nat := c.toNat - 48

/-- strptime %Y: exactly four digits. -/
def parse4Y : List Char → Option (Nat × List Char)
  | a :: b :: c :: d :: r =>
    if a.isDigit && b.isDigit && c.isDigit && d.isDigit then
      some (((digitV a * 10 + digitV b) * 10 + digitV c) * 10 + digitV d, r)
    else none
  | _ => none

/-- strptime %m: the regex 1[0-2] or 0[1-9] or [1-9], in that order. -/
def parseMonth : List Char → Option (Nat × List Char)
  | '1' :: c :: r =>
    if inRange c '0' '2' then some (10 + digitV c, r) else some (1, c :: r)
  | '0' :: c :: r => if inRange c '1' '9' then some (digitV c, r) else none
  | c :: r => if inRange c '1' '9' then some (digitV c, r) else none
  | [] => none

/-- strptime %d: the regex 3[01] or [12]d or 0[1-9] or [1-9], in that order. -/
def parseDay : List Char → Option (Nat × List Char)
  | '3' :: c :: r =>
    if inRange c '0' '1' then some (30 + digitV c, r) else some (3, c :: r)
  | c1 :: c2 :: r =>
    if inRange c1 '1' '2' && c2.isDigit then some (digitV c1 * 10 + digitV c2, r)
    else if c1 == '0' && inRange c2 '1' '9' then some (digitV c2, r)
    else if inRange c1 '1' '9' then some (digitV c1, c2 :: r)
    else none
  | [c] => if inRange c '1' '9' then some (digitV c, []) else none
  | [] => none

/-- strptime %H: the regex 2[0-3] or [0-1]d or d, in that order. -/
def parseHour : List Char → Option (Nat × List Char)
  | '2' :: c :: r =>
    if inRange c '0' '3' then some (20 + digitV c, r) else some (2, c :: r)
  | c1 :: c2 :: r =>
    if inRange c1 '0' '1' && c2.isDigit then some (digitV c1 * 10 + digitV c2, r)
    else if c1.isDigit then some (digitV c1, c2 :: r)
    else none
  | [c] => if c.isDigit then some (digitV c, []) else none
  | [] => none

/-- strptime %M: the regex [0-5]d or d, in that order. -/
def parseMin : List Char → Option (Nat × List Char)
  | c1 :: c2 :: r =>
    if inRange c1 '0' '5' && c2.isDigit then some (digitV c1 * 10 + digitV c2, r)
    else if c1.isDigit then some (digitV c1, c2 :: r)
    else none
  | [c] => if c.isDigit then some (digitV c, []) else none
  | [] => none

/-- strptime %S: the regex 6[0-1] or [0-5]d or d, in that order. -/
def parseSec : List Char → Option (Nat × List Char)
  | '6' :: c :: r =>
    if inRange c '0' '1' then some (60 + digitV c, r) else some (6, c :: r)
  | c1 :: c2 :: r =>
    if inRange c1 '0' '5' && c2.isDigit then some (digitV c1 * 10 + digitV c2, r)
    else if c1.isDigit then some (digitV c1, c2 :: r)
    else none
  | [c] => if c.isDigit then some (digitV c, []) else none
  | [] => none

/-- A literal character of the format string. -/
def litCh (ch : Char) : List Char → Option (List Char)
  | c :: r => if c == ch then some r else none
  | [] => none

def leapYear (y : Nat) : Bool :=
  y % 4 == 0 && (y % 100 != 0 || y % 400 == 0)

def daysInMonth (y m : Nat) : Nat :=
  if m = 2 then (if leapYear y then 29 else 28)
  else if m = 4 ∨ m = 6 ∨ m = 9 ∨ m = 11 then 30
  else 31

/-- Model of datetime.strptime(s, "%Y-%m-%dT%H:%M:%SZ"): `none` means the call
raises (format mismatch, unconverted data, or invalid datetime components). -/
def pyStrptimeZ (s : String) : Option PyDateTime := do
  let (y, r1) ← parse4Y s.data
  let r2 ← litCh '-' r1
  let (mo, r3) ← parseMonth r2
  let r4 ← litCh '-' r3
  let (d, r5) ← parseDay r4
  let r6 ← litCh 'T' r5
  let (h, r7) ← parseHour r6
  let r8 ← litCh ':' r7
  let (mi, r9) ← parseMin r8
  let r10 ← litCh ':' r9
  let (sec, r11) ← parseSec r10
  let r12 ← litCh 'Z' r11
  if r12 = [] ∧ 1 ≤ y ∧ d ≤ daysInMonth y mo ∧ sec ≤ 59 then
    some ⟨y, mo, d, h, mi, sec⟩
  else none

/-- time_ago (src/yt_bot.py lines 42-61). `rd` models
`relativedelta(now_utc, published)`; `now` models the current UTC time. -/
def time_ago (rd : PyDateTime → PyDateTime → RelDelta) (now : PyDateTime)
    (published_date : String) : String :=
  match pyStrptimeZ published_date with
  | none => published_date
  | some published =>
    let diff := rd now published
    if diff.years ≠ 0 then
      toString diff.years ++ " year" ++ (if 1 < diff.years then "s" else "") ++ " ago"
    else if diff.months ≠ 0 then
      toString diff.months ++ " month" ++ (if 1 < diff.months then "s" else "") ++ " ago"
    else if diff.days ≠ 0 then
      toString diff.days ++ " day" ++ (if 1 < diff.days then "s" else "") ++ " ago"
    else if diff.hours ≠ 0 then
      toString diff.hours ++ " hour" ++ (if 1 < diff.hours then "s" else "") ++ " ago"
    else if diff.minutes ≠ 0 then
      toString diff.minutes ++ " minute" ++ (if 1 < diff.minutes then "s" else "") ++ " ago"
    else "Today"

/-! ## is_shorts_by_url (src/yt_bot.py lines 64-81)

The `requests.head` probe is an explicit argument: `some finalUrl` is a
successful probe whose redirect chain ended at `finalUrl` (`r.url`), `none`
is any exception (the bare `except` swallows it). -/

def is_shorts_by_url (probe : Option String) (video_id : String) : String × String :=
  match probe with
  | some finalUrl =>
    if occursIn "/shorts/".data (toLowerL finalUrl.data) then ("Short", finalUrl)
    else ("Video", "https://www.youtube.com/watch?v=" ++ video_id)
  | none => ("Video", "https://www.youtube.com/watch?v=" ++ video_id)

/-! ## extract_links (src/yt_bot.py lines 84-87)

re.findall(r"(https?://[^\s]+)", text): scan left to right; at a position
where the alternative-prefix matches and at least one non-space character
follows it, the match is the maximal non-space run from that position, and
scanning resumes after the match; otherwise advance one character. -/

def linksGoF : Nat → List Char → List (List Char)
  | 0, _ => []
  | _, [] => []
  | fuel + 1, c :: rest =>
    if startsWith "https://".data (c :: rest) || startsWith "http://".data (c :: rest) then
      let body := (c :: rest).takeWhile (fun x => !(isPySpace x))
      let plen : Nat := if startsWith "https://".data (c :: rest) then 8 else 7
      if plen < body.length then body :: linksGoF fuel ((c :: rest).drop body.length)
      else linksGoF fuel rest
    else linksGoF fuel rest

def extract_links (description : String) : String :=
  let ls := linksGoF description.data.length description.data
  if ls.isEmpty then "None"
  else String.intercalate ", " (ls.map (fun l => String.mk l))

/-! ## extract_video_id (src/yt_bot.py lines 90-112) -/

/-- extract_video_id on the character-list core. `none` models Python `None`.
The branch order (shorts/, then watch?v=, then youtu.be/) and the split
semantics (`url.split(pat)[1]`, then split on a single character taking the
first piece) follow the source exactly. -/
def extract_video_id (url : List Char) : Option (List Char) :=
  if url = [] then none
  else
    let u := pyStripL url
    if occursIn "shorts/".data u then
      some (takeBefore '?' (pySplitSecond "shorts/".data u))
    else if occursIn "watch?v=".data u then
      some (takeBefore '&' (pySplitSecond "watch?v=".data u))
    else if occursIn "youtu.be/".data u then
      some (takeBefore '?' (pySplitSecond "youtu.be/".data u))
    else none

/-- extract_video_id on Lean strings. -/
def extractS (url : String) : Option String :=
  (extract_video_id url.data).map (fun l => String.mk l)

/-! ## fetch_youtube_results_for_keyword (src/yt_bot.py lines 116-275)

The two HTTP endpoints are an environment `pages : Nat → PageResult` giving,
for each value of `pages_checked` (1-based), the outcome of the search call
and of the subsequent videos call on that iteration. `none` at either spot
is a transport exception (the source breaks); `isError` models an "error"
payload in the JSON (the source breaks). `probe` feeds `is_shorts_by_url`,
and `rd`/`now` feed `time_ago`. `time.sleep` is not modelled. -/

structure SearchItem where
  videoId : Option String
deriving DecidableEq, Repr

structure SearchResp where
  isError : Bool
  items : List SearchItem
  nextPageToken : Option String
deriving DecidableEq, Repr

structure VideoDetail where
  id : String
  title : Option String
  channelTitle : Option String
  description : Option String
  viewCount : Option String
  publishedAt : Option String
deriving DecidableEq, Repr

structure VideoResp where
  isError : Bool
  items : List VideoDetail
deriving DecidableEq, Repr

structure PageResult where
  search : Option SearchResp
  videos : Option VideoResp

structure Env where
  pages : Nat → PageResult
  probe : String → Option String
  rd : PyDateTime → PyDateTime → RelDelta
  now : PyDateTime

def MAX_PAGES : Nat := 2

/-- One collected row (the row_data dict, lines 241-249), before Rank. -/
structure Row where
  title : String
  channel : String
  views : String
  posted_ago : String
  vtype : String
  videoURL : String
  descLinks : String
deriving DecidableEq, Repr

/-- A row after the post-loop Rank assignment (lines 266-269). -/
structure RankedRow where
  rank : Nat
  data : Row
deriving DecidableEq, Repr

/-- The dict id_to_item = {item["id"]: item} (line 217): a later duplicate id
overwrites an earlier one, so lookup returns the last matching item. -/
def idToItemFn (items : List VideoDetail) (vid : String) : Option VideoDetail :=
  (items.filter (fun it => it.id == vid)).getLast?

/-- Build row_data for one video id (lines 228-249). -/
def mkRow (env : Env) (vid : String) (d : VideoDetail) : Row :=
  let cls := is_shorts_by_url (env.probe vid) vid
  { title := d.title.getD "Untitled"
    channel := d.channelTitle.getD "Unknown Channel"
    views := d.viewCount.getD "N/A"
    posted_ago := time_ago env.rd env.now (d.publishedAt.getD "")
    vtype := cls.1
    videoURL := cls.2
    descLinks := extract_links (d.description.getD "") }

/-- The inner per-page loop over video_ids (lines 220-256): stop as soon as
both buckets hold 10, skip ids with no detail, append to the matching bucket
only while it holds fewer than 10. -/
def processIds (env : Env) (items : List VideoDetail) :
    List String → List Row → List Row → List Row × List Row
  | [], s, v => (s, v)
  | vid :: rest, s, v =>
    if 10 ≤ s.length ∧ 10 ≤ v.length then (s, v)
    else
      match idToItemFn items vid with
      | none => processIds env items rest s v
      | some d =>
        let row := mkRow env vid d
        if row.vtype = "Short" then
          processIds env items rest (if s.length < 10 then s ++ [row] else s) v
        else
          processIds env items rest s (if v.length < 10 then v ++ [row] else v)

/-- Python truthiness of page_token (`if not page_token: break`). -/
def tokenTruthy : Option String → Bool
  | none => false
  | some t => t != ""

/-- Verdict of one iteration of the while body: `halt` is any `break`,
`next` is reaching the bottom (or a `continue`) with a truthy token. -/
inductive StepRes where
  | halt (s v : List Row)
  | next (s v : List Row)

/-- Bottom of the while body: read nextPageToken and either continue to the
next iteration or break (lines 259-263, and the two continue paths). -/
def stepToken (sr : SearchResp) (s v : List Row) : StepRes :=
  if tokenTruthy sr.nextPageToken then .next s v else .halt s v

/-- The videos-call half of a page iteration (lines 196-256): the argument is
the outcome of the videos request (`none` = transport exception). -/
def pageStepVideos (env : Env) (sr : SearchResp) (s v : List Row) : Option VideoResp → StepRes
  | none => .halt s v
  | some vr =>
    if vr.isError then .halt s v
    else if vr.items.isEmpty then stepToken sr s v
    else
      stepToken sr
        (processIds env vr.items (sr.items.filterMap SearchItem.videoId) s v).1
        (processIds env vr.items (sr.items.filterMap SearchItem.videoId) s v).2

/-- The search-call half of a page iteration (lines 157-194): the argument is
the outcome of the search request (`none` = transport exception). -/
def pageStepCore (env : Env) (pc1 : Nat) (s v : List Row) : Option SearchResp → StepRes
  | none => .halt s v
  | some sr =>
    if sr.isError then .halt s v
    else if sr.items.isEmpty then .halt s v
    else if (sr.items.filterMap SearchItem.videoId).isEmpty then stepToken sr s v
    else pageStepVideos env sr s v ((env.pages pc1).videos)

/-- One iteration of the while body for pages_checked = pc1 (lines 144-263). -/
def pageStep (env : Env) (pc1 : Nat) (s v : List Row) : StepRes :=
  pageStepCore env pc1 s v ((env.pages pc1).search)

structure FetchOut where
  shorts : List Row
  videos : List Row
  pagesFetched : List Nat
deriving DecidableEq, Repr

/-- The while loop (line 143), with fuel bounding iterations. The loop guard
is re-checked as in the source; since `pc` strictly increases and the guard
requires `pc < mp`, any `fuel ≥ mp - pc` (the wrapper passes `fuel = mp`)
makes the fuel branch unreachable. `pagesFetched` records, for the claims
about pagination, the `pages_checked` values whose search call was issued. -/
def fetchGo (env : Env) (mp : Nat) : Nat → Nat → List Row → List Row → FetchOut
  | 0, _, s, v => ⟨s, v, []⟩
  | fuel + 1, pc, s, v =>
    if pc < mp ∧ (s.length < 10 ∨ v.length < 10) then
      match pageStep env (pc + 1) s v with
      | .halt s' v' => ⟨s', v', [pc + 1]⟩
      | .next s' v' =>
        let r := fetchGo env mp fuel (pc + 1) s' v'
        ⟨r.shorts, r.videos, (pc + 1) :: r.pagesFetched⟩
    else ⟨s, v, []⟩

/-- enumerate(rows, start=n) writing Rank (lines 266-269). -/
def addRanksFrom (n : Nat) : List Row → List RankedRow
  | [] => []
  | r :: t => ⟨n, r⟩ :: addRanksFrom (n + 1) t

/-- fetch_youtube_results_for_keyword (lines 116-275). -/
def fetch_youtube_results_for_keyword (env : Env) (keyword : String) :
    List RankedRow × List RankedRow :=
  if pyStripL keyword.data = [] then ([], [])
  else
    let o := fetchGo env MAX_PAGES MAX_PAGES 0 [] []
    (addRanksFrom 1 o.shorts, addRanksFrom 1 o.videos)

/-! ## collect_matches (src/yt_bot.py lines 340-379) -/

/-- The dict {name: i for i, name in enumerate(header)}: a duplicate header
name keeps the LAST index. -/
def colLookup (header : List String) (name : String) : Option Nat :=
  ((header.enum.reverse).find? (fun p => p.2 == name)).map (fun p => p.1)

/-- row[i] if len(row) > i else "" (line 359 and friends). -/
def cellD (row : List String) (i : Nat) : String := row.getD i ""

def requiredMatchCols : List String := ["Keyword", "Rank", "Title", "Channel", "Video URL"]

/-- The appended match row (lines 369-377). -/
def mkMatch (dateStr typeLabel : String) (cK cR cT cC cU : Nat)
    (row : List String) : List String :=
  [dateStr, typeLabel, cellD row cK, cellD row cR, cellD row cT, cellD row cC, cellD row cU]

/-- The row loop of collect_matches (lines 355-379). `not vid_id` is true for
both Python None and the empty string. -/
def collectLoop (ids : List String) (dateStr typeLabel : String)
    (cK cR cT cC cU : Nat) : List (List String) → List (List String)
  | [] => []
  | row :: rest =>
    if row = [] then collectLoop ids dateStr typeLabel cK cR cT cC cU rest
    else
      match extractS (cellD row cU) with
      | none => collectLoop ids dateStr typeLabel cK cR cT cC cU rest
      | some vid =>
        if vid = "" ∨ vid ∉ ids then collectLoop ids dateStr typeLabel cK cR cT cC cU rest
        else mkMatch dateStr typeLabel cK cR cT cC cU row ::
          collectLoop ids dateStr typeLabel cK cR cT cC cU rest

/-- collect_matches (lines 340-379). Returns (printed diagnostics, matches).
`ids` is the wakefit_ids set; `dateStr` is the enclosing date_str. -/
def collect_matches (values : List (List String)) (typeLabel dateStr : String)
    (ids : List String) : List String × List (List String) :=
  if values.length ≤ 1 then ([], [])
  else
    let col := colLookup (values.headD [])
    match requiredMatchCols.find? (fun r => (col r).isNone) with
    | some r => (["Column " ++ r ++ " not found, skipping it for Wakefit analysis."], [])
    | none =>
      ([], collectLoop ids dateStr typeLabel
        ((col "Keyword").getD 0) ((col "Rank").getD 0) ((col "Title").getD 0)
        ((col "Channel").getD 0) ((col "Video URL").getD 0) (values.drop 1))

/-- The keep-condition of the collect_matches row loop, as a predicate: the
URL cell yields an id that is truthy and a member of the tracked set. -/
def matchKeep (ids : List String) (cU : Nat) (row : List String) : Bool :=
  match extractS (cellD row cU) with
  | some v => decide (v ≠ "" ∧ v ∈ ids)
  | none => false

/-! ## sheets_analysis.py -/

/-- row[i], raising IndexError when the row is too short. -/
def cellE (row : List String) (i : Nat) : Except String String :=
  if h : i < row.length then .ok row[i] else .error "IndexError"

/-- col[name], raising KeyError when the header lacks the name. -/
def colE (col : String → Option Nat) (name : String) : Except String Nat :=
  match col name with
  | some i => .ok i
  | none => .error ("KeyError: " ++ name)

/-- Computable lexicographic comparison of character lists: the order Python
sorted() uses on strings, and provably the Lean String order. -/
def lexLe : List Char → List Char → Bool
  | [], _ => true
  | _ :: _, [] => false
  | a :: as, b :: bs => if a < b then true else if a = b then lexLe as bs else false

/-- One step of a stable insertion sort by lexLe. -/
def insertLe (a : String) : List String → List String
  | [] => [a]
  | b :: t => if lexLe a.data b.data then a :: b :: t else b :: insertLe a t

/-- Python sorted(set(l)): the deduplicated values in ascending string order. -/
def sortStrings (l : List String) : List String := l.dedup.foldr insertLe []

/-- The Date cell of every data row, in order (the generator on line 98 reads
`r[col["Date"]]` for every row; the truthiness filter is applied at use). -/
def dateValuesE (di : Nat) : List (List String) → Except String (List String)
  | [] => .ok []
  | r :: rs => do
    let d ← cellE r di
    let rest ← dateValuesE di rs
    .ok (d :: rest)

abbrev MKey := String × String × String

/-- The per-row item dict (lines 118-125). -/
structure MRow where
  rank : String
  channel : String
  title : String
  views : String
  likes : String
  comments : String
deriving DecidableEq, Repr

/-- Python dict assignment `m[k] = v`: overwrite in place when the key exists
(keeping its position), otherwise append. -/
def dictInsert (k : MKey) (v : MRow) (m : List (MKey × MRow)) : List (MKey × MRow) :=
  if m.any (fun p => decide (p.1 = k)) then
    m.map (fun p => if p.1 = k then (k, v) else p)
  else m ++ [(k, v)]

/-- Python dict lookup. -/
def dictFind (m : List (MKey × MRow)) (k : MKey) : Option MRow :=
  (m.find? (fun p => decide (p.1 = k))).map (fun p => p.2)

/-- Read one row of the map-building loop (lines 114-125), with the source's
evaluation order: Date, then the key columns, then the item columns. -/
def rowKeyItemE (col : String → Option Nat) (r : List String) :
    Except String (String × MKey × MRow) := do
  let d ← cellE r (← colE col "Date")
  let kw ← cellE r (← colE col "Keyword")
  let ty ← cellE r (← colE col "Type")
  let url ← cellE r (← colE col "Video URL")
  let rank ← cellE r (← colE col "Rank")
  let ch ← cellE r (← colE col "Channel")
  let ti ← cellE r (← colE col "Title")
  let vw ← cellE r (← colE col "Views")
  let lk ← cellE r (← colE col "Likes")
  let cm ← cellE r (← colE col "Comments")
  .ok (d, (kw, ty, url), ⟨rank, ch, ti, vw, lk, cm⟩)

/-- The map-building loop (lines 111-130): every data row contributes to
today_map when its date is today and to prev_map when its date is prev. -/
def buildMapsE (col : String → Option Nat) (dateStr prevDate : String)
    (tm pm : List (MKey × MRow)) :
    List (List String) → Except String (List (MKey × MRow) × List (MKey × MRow))
  | [] => .ok (tm, pm)
  | r :: rs =>
    match rowKeyItemE col r with
    | .error e => .error e
    | .ok x =>
      buildMapsE col dateStr prevDate
        (if x.1 = dateStr then dictInsert x.2.1 x.2.2 tm else tm)
        (if x.1 = prevDate then dictInsert x.2.1 x.2.2 pm else pm) rs

/-- One emitted movement row (lines 141-157). -/
structure MovementRow where
  keyword : String
  mtype : String
  channel : String
  title : String
  url : String
  todayRank : String
  prevDate : String
  prevRank : String
  rankChange : Option Int
  todayViews : String
  todayLikes : String
  todayComments : String
  prevViews : String
  prevLikes : String
  prevComments : String
deriving DecidableEq, Repr

/-- rank_change = int(prev) - int(today), with the empty sentinel (`none`)
when either int() raises (lines 136-139). -/
def mkMove (prevDate : String) (k : MKey) (today prev : MRow) : MovementRow :=
  { keyword := k.1
    mtype := k.2.1
    channel := today.channel
    title := today.title
    url := k.2.2
    todayRank := today.rank
    prevDate := prevDate
    prevRank := prev.rank
    rankChange :=
      match pyInt prev.rank, pyInt today.rank with
      | some a, some b => some (a - b)
      | _, _ => none
    todayViews := today.views
    todayLikes := today.likes
    todayComments := today.comments
    prevViews := prev.views
    prevLikes := prev.likes
    prevComments := prev.comments }

/-- The join key carried by an emitted movement row. -/
def moveKey (m : MovementRow) : MKey := (m.keyword, m.mtype, m.url)

/-- The join loop (lines 132-157): iterate today_map in insertion order,
emitting a row for each key also present in prev_map. -/
def joinMovement (pm : List (MKey × MRow)) (prevDate : String) :
    List (MKey × MRow) → List MovementRow
  | [] => []
  | (k, t) :: rest =>
    match dictFind pm k with
    | some p => mkMove prevDate k t p :: joinMovement pm prevDate rest
    | none => joinMovement pm prevDate rest

/-- build_daily_movement_summary (src/sheets_analysis.py lines 83-179).
Returns `.error` for an uncaught Python exception, otherwise
(printed messages, movement rows); an empty row list means nothing is
written to a Movement tab. -/
def build_daily_movement_summary (allValues : List (List String)) (dateStr : String) :
    Except String (List String × List MovementRow) :=
  if allValues.length ≤ 1 then .ok (["No data in Wakefit_Daily_Ranks."], [])
  else
    let col := colLookup (allValues.headD [])
    let dataRows := allValues.drop 1
    match colE col "Date" with
    | .error e => .error e
    | .ok di =>
      match dateValuesE di dataRows with
      | .error e => .error e
      | .ok dvals =>
        let dates := sortStrings (dvals.filter (fun d => d != ""))
        if dateStr ∉ dates then .ok (["Todays date missing in Wakefit_Daily_Ranks."], [])
        else
          let idx := List.indexOf dateStr dates
          if idx = 0 then .ok (["No previous day to compare with."], [])
          else
            let prevDate := dates.getD (idx - 1) ""
            match buildMapsE col dateStr prevDate [] [] dataRows with
            | .error e => .error e
            | .ok (tm, pm) =>
              let movement := joinMovement pm prevDate tm
              if movement.isEmpty then .ok (["No overlapping videos for movement."], [])
              else .ok ([], movement)

def requiredSummaryCols : List String :=
  ["Date", "Keyword", "Type", "Rank", "Title", "Channel", "Video URL", "Views", "Likes", "Comments"]

/-- The summary row loop (lines 44-59), with the source's field order. -/
def summaryRowsE (col : String → Option Nat) (dateStr : String) :
    List (List String) → Except String (List (List String))
  | [] => .ok []
  | r :: rs => do
    let d ← cellE r ((col "Date").getD 0)
    if d ≠ dateStr then summaryRowsE col dateStr rs
    else do
      let kw ← cellE r ((col "Keyword").getD 0)
      let ty ← cellE r ((col "Type").getD 0)
      let ch ← cellE r ((col "Channel").getD 0)
      let ti ← cellE r ((col "Title").getD 0)
      let url ← cellE r ((col "Video URL").getD 0)
      let rank ← cellE r ((col "Rank").getD 0)
      let vw ← cellE r ((col "Views").getD 0)
      let lk ← cellE r ((col "Likes").getD 0)
      let cm ← cellE r ((col "Comments").getD 0)
      let rest ← summaryRowsE col dateStr rs
      .ok ([kw, ty, ch, ti, url, rank, vw, lk, cm] :: rest)

/-- build_daily_keyword_summary (src/sheets_analysis.py lines 22-79). -/
def build_daily_keyword_summary (allValues : List (List String)) (dateStr : String) :
    Except String (List String × List (List String)) :=
  if allValues.length ≤ 1 then .ok (["No data in Wakefit_Daily_Ranks."], [])
  else
    let col := colLookup (allValues.headD [])
    match requiredSummaryCols.find? (fun r => (col r).isNone) with
    | some r => .ok (["Required column missing: " ++ r], [])
    | none =>
      match summaryRowsE col dateStr (allValues.drop 1) with
      | .error e => .error e
      | .ok summary =>
        if summary.isEmpty then .ok (["No Wakefit rankings today, no summary tab."], [])
        else .ok ([], summary)

/-! ## Concrete sample data used by witnesses and counterexamples -/

def rdZero : PyDateTime → PyDateTime → RelDelta := fun _ _ => ⟨0, 0, 0, 0, 0⟩

def nowSample : PyDateTime := ⟨2026, 10, 12, 0, 0, 0⟩

/-- A benign one-page environment: two distinct ids, first one a Short. -/
def envA : Env where
  pages := fun n =>
    if n = 1 then
      { search := some { isError := false
                         items := [⟨some "aaa"⟩, ⟨some "bbb"⟩]
                         nextPageToken := none }
        videos := some { isError := false
                         items := [⟨"aaa", some "T1", some "C1", some "", some "5", none⟩,
                                   ⟨"bbb", some "T2", some "C2", some "", some "7", none⟩] } }
    else { search := none, videos := none }
  probe := fun vid => if vid = "aaa" then some "https://www.youtube.com/shorts/aaa" else none
  rd := rdZero
  now := nowSample

/-- An environment whose single search page returns the same id twice. -/
def envDup : Env where
  pages := fun n =>
    if n = 1 then
      { search := some { isError := false
                         items := [⟨some "aaa"⟩, ⟨some "aaa"⟩]
                         nextPageToken := none }
        videos := some { isError := false
                         items := [⟨"aaa", some "T1", some "C1", some "", some "5", none⟩] } }
    else { search := none, videos := none }
  probe := fun _ => none
  rd := rdZero
  now := nowSample

/-- A full bucket used to exercise the early-stop guards. -/
def rows10 : List Row :=
  List.replicate 10 ⟨"t", "c", "0", "Today", "Video", "https://www.youtube.com/watch?v=x", "None"⟩

def moveHeader : List String :=
  ["Date", "Keyword", "Type", "Rank", "Title", "Channel", "Video URL", "Views", "Likes", "Comments"]

/-- A well-formed two-day ranks table sharing one key across both days. -/
def tblMove : List (List String) :=
  [moveHeader,
   ["2024-01-01", "kw", "Video", "7", "t", "c", "https://www.youtube.com/watch?v=aaa", "10", "1", "0"],
   ["2024-01-02", "kw", "Video", "5", "t", "c", "https://www.youtube.com/watch?v=aaa", "12", "2", "0"],
   ["2024-01-02", "kw", "Video", "3", "u", "c", "https://www.youtube.com/watch?v=bbb", "9", "0", "0"]]

/-- The today map built from tblMove for 2024-01-02. -/
def tmC : List (MKey × MRow) :=
  [(("kw", "Video", "https://www.youtube.com/watch?v=aaa"), ⟨"5", "c", "t", "12", "2", "0"⟩),
   (("kw", "Video", "https://www.youtube.com/watch?v=bbb"), ⟨"3", "c", "u", "9", "0", "0"⟩)]

/-- The previous-day map built from tblMove for 2024-01-01. -/
def pmC : List (MKey × MRow) :=
  [(("kw", "Video", "https://www.youtube.com/watch?v=aaa"), ⟨"7", "c", "t", "10", "1", "0"⟩)]

/-- A ranks table whose header lacks the Likes column. -/
def tbl9 : List (List String) :=
  [["Date", "Keyword", "Type", "Rank", "Title", "Channel", "Video URL", "Views", "Comments"],
   ["2024-01-01", "kw", "Video", "7", "t", "c", "https://www.youtube.com/watch?v=aaa", "10", "0"],
   ["2024-01-02", "kw", "Video", "5", "t", "c", "https://www.youtube.com/watch?v=aaa", "12", "0"]]

/-- A per-run tab for the allow-list filter. -/
def tblMatch : List (List String) :=
  [["Keyword_Sr_No", "Keyword", "Rank", "Title", "Channel", "Views", "Posted_Ago", "Type", "Video URL", "Description_Links"],
   ["1", "kw", "1", "t1", "c1", "5", "Today", "Video", "https://www.youtube.com/watch?v=aaa", "None"],
   ["1", "kw", "2", "t2", "c2", "6", "Today", "Video", "https://www.youtube.com/watch?v=bbb", "None"],
   ["1", "kw", "3", "t3", "c3", "7", "Video", "Video", "no-url-here", "None"]]

end YT

namespace YT

/-! ## Lemmas about the character-level splitting machinery -/

theorem startsWith_self_append (p t : List Char) : startsWith p (p ++ t) = true := by
  induction p with
  | nil => rfl
  | cons c cs ih => simp [startsWith, ih]

theorem startsWith_eq_false_of_clashes (pat s t : List Char) (h : clashes pat s = true) :
    startsWith pat (s ++ t) = false := by
  induction pat generalizing s with
  | nil => simp [clashes] at h
  | cons p ps ih =>
    cases s with
    | nil => simp [clashes] at h
    | cons c cs =>
      simp only [clashes, Bool.or_eq_true, bne_iff_ne, ne_eq] at h
      rcases h with h | h
      · simp [startsWith, h]
      · simp [startsWith, ih cs h]

theorem splitFirst_append (pat pre rest : List Char) (h : allClash pat pre = true) :
    splitFirst pat (pre ++ (pat ++ rest)) = some (pre, rest) := by
  induction pre with
  | nil =>
    cases pat with
    | nil =>
      cases rest with
      | nil => rfl
      | cons c r => simp [splitFirst, startsWith]
    | cons p ps =>
      have h1 : startsWith (p :: ps) ((p :: ps) ++ rest) = true := startsWith_self_append _ _
      simp only [List.nil_append, List.cons_append] at h1 ⊢
      simp [splitFirst, h1, List.drop_left]
  | cons x pre' ih =>
    have hsplit : clashes pat (x :: pre') = true ∧ allClash pat pre' = true := by
      simpa [allClash] using h
    have hs : startsWith pat ((x :: pre') ++ (pat ++ rest)) = false :=
      startsWith_eq_false_of_clashes _ _ _ hsplit.1
    simp only [List.cons_append] at hs ⊢
    simp [splitFirst, hs, ih hsplit.2]

theorem occursIn_eq_isSome (pat s : List Char) : occursIn pat s = (splitFirst pat s).isSome := by
  induction s with
  | nil =>
    cases pat with
    | nil => rfl
    | cons p ps => rfl
  | cons c r ih =>
    cases h : startsWith pat (c :: r) with
    | true => simp [occursIn, splitFirst, h]
    | false => simp [occursIn, splitFirst, h, ih]

theorem occursIn_append_clash (pat pre t : List Char) (h : allClash pat pre = true) :
    occursIn pat (pre ++ t) = occursIn pat t := by
  induction pre with
  | nil => rfl
  | cons x pre' ih =>
    have hsplit : clashes pat (x :: pre') = true ∧ allClash pat pre' = true := by
      simpa [allClash] using h
    have hs := startsWith_eq_false_of_clashes pat (x :: pre') t hsplit.1
    simp only [List.cons_append] at hs ⊢
    simp [occursIn, hs, ih hsplit.2]

theorem startsWith_mono (pat t u : List Char) (h : startsWith pat (t ++ u) = true)
    (hl : pat.length ≤ t.length) : startsWith pat t = true := by
  induction pat generalizing t with
  | nil => rfl
  | cons p ps ih =>
    cases t with
    | nil => simp at hl
    | cons a t' =>
      simp only [List.cons_append, startsWith, Bool.and_eq_true] at h ⊢
      exact ⟨h.1, ih t' h.2 (by simpa using hl)⟩

theorem mem_of_startsWith_past (pat t u : List Char) (c : Char)
    (h : startsWith pat (t ++ c :: u) = true) (hl : t.length < pat.length) : c ∈ pat := by
  induction pat generalizing t with
  | nil => simp at hl
  | cons p ps ih =>
    cases t with
    | nil =>
      simp only [List.nil_append, startsWith, Bool.and_eq_true, beq_iff_eq] at h
      exact List.mem_cons.mpr (Or.inl h.1.symm)
    | cons a t' =>
      simp only [List.cons_append, startsWith, Bool.and_eq_true] at h
      exact List.mem_cons_of_mem _ (ih t' h.2 (by simp at hl; omega))

theorem splitFirst_tail (pat id q : List Char) (c : Char) (hp : pat ≠ []) (hc : c ∉ pat)
    (hid : occursIn pat id = false) :
    splitFirst pat (id ++ c :: q) = none ∨
      ∃ m p, splitFirst pat (id ++ c :: q) = some (id ++ c :: m, p) := by
  induction id with
  | nil =>
    obtain ⟨p, ps, rfl⟩ : ∃ p ps, pat = p :: ps := by
      cases pat with
      | nil => exact absurd rfl hp
      | cons p ps => exact ⟨p, ps, rfl⟩
    have hpc : (p == c) = false := by
      cases hcc : p == c with
      | false => rfl
      | true => exact absurd (List.mem_cons.mpr (Or.inl (beq_iff_eq.mp hcc).symm)) hc
    have hs : startsWith (p :: ps) (c :: q) = false := by simp [startsWith, hpc]
    simp only [List.nil_append]
    cases hq : splitFirst (p :: ps) q with
    | none =>
      left
      simp [splitFirst, hs, hq]
    | some pr =>
      right
      exact ⟨pr.1, pr.2, by simp [splitFirst, hs, hq]⟩
  | cons x id' ih =>
    have hx : startsWith pat (x :: id') = false ∧ occursIn pat id' = false := by
      simpa [occursIn] using hid
    have hs : startsWith pat ((x :: id') ++ c :: q) = false := by
      by_cases hl : pat.length ≤ (x :: id').length
      · cases hw : startsWith pat ((x :: id') ++ c :: q) with
        | false => rfl
        | true => exact absurd (startsWith_mono pat (x :: id') (c :: q) hw hl) (by simp [hx.1])
      · push_neg at hl
        cases hw : startsWith pat ((x :: id') ++ c :: q) with
        | false => rfl
        | true => exact absurd (mem_of_startsWith_past pat (x :: id') q c hw hl) hc
    simp only [List.cons_append] at hs ⊢
    rcases ih hx.2 with h | ⟨m, pp, h⟩
    · left
      simp [splitFirst, hs, h]
    · right
      exact ⟨m, pp, by simp [splitFirst, hs, h]⟩

theorem takeBefore_append (ch : Char) (a b : List Char) (h : ∀ x ∈ a, x ≠ ch) :
    takeBefore ch (a ++ ch :: b) = a := by
  induction a with
  | nil => simp [takeBefore, List.takeWhile_cons]
  | cons x a' ih =>
    have hx : (x != ch) = true := by simpa using h x (List.mem_cons_self _ _)
    simp only [List.cons_append, takeBefore, List.takeWhile_cons, hx, if_true]
    exact congrArg (x :: ·) (ih (fun y hy => h y (List.mem_cons_of_mem _ hy)))

theorem dropWhile_space_eq_self (s : List Char) (h : ∀ c ∈ s, isPySpace c = false) :
    s.dropWhile isPySpace = s := by
  cases s with
  | nil => rfl
  | cons c t => simp [List.dropWhile_cons, h c (List.mem_cons_self _ _)]

theorem pyStripL_eq_self (s : List Char) (h : ∀ c ∈ s, isPySpace c = false) :
    pyStripL s = s := by
  unfold pyStripL
  rw [dropWhile_space_eq_self s h,
    dropWhile_space_eq_self s.reverse (fun c hc => h c (List.mem_reverse.mp hc))]
  exact List.reverse_reverse s

theorem extract_video_id_eq (url : List Char) (hne : url ≠ [])
    (hnw : ∀ c ∈ url, isPySpace c = false) :
    extract_video_id url =
      (if occursIn "shorts/".data url then
        some (takeBefore '?' (pySplitSecond "shorts/".data url))
      else if occursIn "watch?v=".data url then
        some (takeBefore '&' (pySplitSecond "watch?v=".data url))
      else if occursIn "youtu.be/".data url then
        some (takeBefore '?' (pySplitSecond "youtu.be/".data url))
      else none) := by
  unfold extract_video_id
  rw [if_neg hne, pyStripL_eq_self url hnw]

end YT

namespace YT

/-- C4 counterexample: the claim says a watch URL followed by an arbitrary
trailing ?-query round-trips to the id, but the source splits watch URLs on
the ampersand only, so the ?-query stays glued to the extracted id. -/
theorem C4_cex :
    extract_video_id "https://www.youtube.com/watch?v=XYZ?feature=share".data =
        some "XYZ?feature=share".data ∧
      "XYZ?feature=share".data ≠ "XYZ".data := by
  exact ⟨by decide, by decide⟩

/-- C4 (amended): extract_video_id recovers the id from a shorts URL and a
youtu.be URL with a trailing ?-query, and from a watch URL with trailing
ampersand-separated parameters, for any id and query free of whitespace such
that the id does not contain the branch marker or the separator character and
the id-plus-query tail does not contain an earlier branch marker. -/
theorem C4_amended (vid q : List Char)
    (hvw : ∀ c ∈ vid, isPySpace c = false) (hqw : ∀ c ∈ q, isPySpace c = false) :
    (occursIn "shorts/".data vid = false → '?' ∉ vid →
      extract_video_id ("https://www.youtube.com/shorts/".data ++ (vid ++ '?' :: q)) =
        some vid)
    ∧ (occursIn "watch?v=".data vid = false → '&' ∉ vid →
      occursIn "shorts/".data (vid ++ '&' :: q) = false →
      extract_video_id ("https://www.youtube.com/watch?v=".data ++ (vid ++ '&' :: q)) =
        some vid)
    ∧ (occursIn "youtu.be/".data vid = false → '?' ∉ vid →
      occursIn "shorts/".data (vid ++ '?' :: q) = false →
      occursIn "watch?v=".data (vid ++ '?' :: q) = false →
      extract_video_id ("https://youtu.be/".data ++ (vid ++ '?' :: q)) = some vid) := by
  have hnw : ∀ (pre : List Char) (sep : Char), (∀ c ∈ pre, isPySpace c = false) →
      isPySpace sep = false → ∀ c ∈ pre ++ (vid ++ sep :: q), isPySpace c = false := by
    intro pre sep hpre hsep c hc
    rcases List.mem_append.mp hc with h | h
    · exact hpre c h
    · rcases List.mem_append.mp h with h' | h'
      · exact hvw c h'
      · rcases List.mem_cons.mp h' with rfl | h''
        · exact hsep
        · exact hqw c h''
  have hne : ∀ (pre : List Char) (sep : Char), pre ≠ [] →
      pre ++ (vid ++ sep :: q) ≠ [] := by
    intro pre sep hpre h
    exact absurd (List.append_eq_nil.mp h).1 hpre
  refine ⟨?_, ?_, ?_⟩
  · intro h1 h2
    rw [extract_video_id_eq _ (hne _ _ (by decide)) (hnw _ _ (by decide) (by decide))]
    have hsp : splitFirst "shorts/".data
        ("https://www.youtube.com/shorts/".data ++ (vid ++ '?' :: q)) =
        some ("https://www.youtube.com/".data, vid ++ '?' :: q) := by
      rw [show "https://www.youtube.com/shorts/".data =
        "https://www.youtube.com/".data ++ "shorts/".data from by decide, List.append_assoc]
      exact splitFirst_append _ _ _ (by decide)
    have hocc : occursIn "shorts/".data
        ("https://www.youtube.com/shorts/".data ++ (vid ++ '?' :: q)) = true := by
      rw [occursIn_eq_isSome, hsp]
      rfl
    rw [if_pos hocc]
    have hne2 : ∀ x ∈ vid, x ≠ '?' := fun x hx e => h2 (e ▸ hx)
    rcases splitFirst_tail "shorts/".data vid q '?' (by decide) (by decide) h1 with h | ⟨m, pp, h⟩
    · simp only [pySplitSecond, hsp, h]
      rw [takeBefore_append '?' vid q hne2]
    · simp only [pySplitSecond, hsp, h]
      rw [takeBefore_append '?' vid m hne2]
  · intro h1 h2 h3
    rw [extract_video_id_eq _ (hne _ _ (by decide)) (hnw _ _ (by decide) (by decide))]
    have hno : occursIn "shorts/".data
        ("https://www.youtube.com/watch?v=".data ++ (vid ++ '&' :: q)) = false := by
      rw [occursIn_append_clash _ _ _ (by decide)]
      exact h3
    rw [if_neg (by simp only [hno]; decide)]
    have hsp : splitFirst "watch?v=".data
        ("https://www.youtube.com/watch?v=".data ++ (vid ++ '&' :: q)) =
        some ("https://www.youtube.com/".data, vid ++ '&' :: q) := by
      rw [show "https://www.youtube.com/watch?v=".data =
        "https://www.youtube.com/".data ++ "watch?v=".data from by decide, List.append_assoc]
      exact splitFirst_append _ _ _ (by decide)
    have hocc : occursIn "watch?v=".data
        ("https://www.youtube.com/watch?v=".data ++ (vid ++ '&' :: q)) = true := by
      rw [occursIn_eq_isSome, hsp]
      rfl
    rw [if_pos hocc]
    have hne2 : ∀ x ∈ vid, x ≠ '&' := fun x hx e => h2 (e ▸ hx)
    rcases splitFirst_tail "watch?v=".data vid q '&' (by decide) (by decide) h1 with h | ⟨m, pp, h⟩
    · simp only [pySplitSecond, hsp, h]
      rw [takeBefore_append '&' vid q hne2]
    · simp only [pySplitSecond, hsp, h]
      rw [takeBefore_append '&' vid m hne2]
  · intro h1 h2 h3 h4
    rw [extract_video_id_eq _ (hne _ _ (by decide)) (hnw _ _ (by decide) (by decide))]
    have hno1 : occursIn "shorts/".data
        ("https://youtu.be/".data ++ (vid ++ '?' :: q)) = false := by
      rw [occursIn_append_clash _ _ _ (by decide)]
      exact h3
    have hno2 : occursIn "watch?v=".data
        ("https://youtu.be/".data ++ (vid ++ '?' :: q)) = false := by
      rw [occursIn_append_clash _ _ _ (by decide)]
      exact h4
    rw [if_neg (by simp only [hno1]; decide), if_neg (by simp only [hno2]; decide)]
    have hsp : splitFirst "youtu.be/".data
        ("https://youtu.be/".data ++ (vid ++ '?' :: q)) =
        some ("https://".data, vid ++ '?' :: q) := by
      rw [show "https://youtu.be/".data = "https://".data ++ "youtu.be/".data from by decide,
        List.append_assoc]
      exact splitFirst_append _ _ _ (by decide)
    have hocc : occursIn "youtu.be/".data
        ("https://youtu.be/".data ++ (vid ++ '?' :: q)) = true := by
      rw [occursIn_eq_isSome, hsp]
      rfl
    rw [if_pos hocc]
    have hne2 : ∀ x ∈ vid, x ≠ '?' := fun x hx e => h2 (e ▸ hx)
    rcases splitFirst_tail "youtu.be/".data vid q '?' (by decide) (by decide) h1 with h | ⟨m, pp, h⟩
    · simp only [pySplitSecond, hsp, h]
      rw [takeBefore_append '?' vid q hne2]
    · simp only [pySplitSecond, hsp, h]
      rw [takeBefore_append '?' vid m hne2]

/-- C4 witness: the amended round-trips evaluated at concrete URLs. -/
theorem C4_witness :
    extract_video_id
        ("https://www.youtube.com/shorts/".data ++ ("XYZ".data ++ '?' :: "feature=share".data)) =
      some "XYZ".data
    ∧ extract_video_id
        ("https://www.youtube.com/watch?v=".data ++ ("XYZ".data ++ '&' :: "t=10".data)) =
      some "XYZ".data
    ∧ extract_video_id
        ("https://youtu.be/".data ++ ("XYZ".data ++ '?' :: "si=a1".data)) =
      some "XYZ".data := by
  refine ⟨?_, ?_, ?_⟩
  · exact (C4_amended "XYZ".data "feature=share".data (by decide) (by decide)).1
      (by decide) (by decide)
  · exact (C4_amended "XYZ".data "t=10".data (by decide) (by decide)).2.1
      (by decide) (by decide) (by decide)
  · exact (C4_amended "XYZ".data "si=a1".data (by decide) (by decide)).2.2
      (by decide) (by decide) (by decide) (by decide)

end YT

namespace YT

/-- C5: is_shorts_by_url returns ("Short", resolvedUrl) exactly when the probe
succeeded and the lowercased final URL contains the substring "/shorts/"; in
every other case, including a raised probe, it returns
("Video", watch URL built from the id); it always terminates with one of the
two types, never propagating an error. -/
theorem C5_classifier (probe : Option String) (vid : String) :
    (∀ u, probe = some u → occursIn "/shorts/".data (toLowerL u.data) = true →
      is_shorts_by_url probe vid = ("Short", u))
    ∧ ((probe = none ∨
        ∀ u, probe = some u → occursIn "/shorts/".data (toLowerL u.data) = false) →
      is_shorts_by_url probe vid = ("Video", "https://www.youtube.com/watch?v=" ++ vid))
    ∧ (((is_shorts_by_url probe vid).1 = "Short" ∧
        ∃ u, probe = some u ∧ occursIn "/shorts/".data (toLowerL u.data) = true ∧
          (is_shorts_by_url probe vid).2 = u)
      ∨ ((is_shorts_by_url probe vid).1 = "Video" ∧
        (is_shorts_by_url probe vid).2 = "https://www.youtube.com/watch?v=" ++ vid)) := by
  refine ⟨?_, ?_, ?_⟩
  · intro u hu hocc
    subst hu
    simp [is_shorts_by_url, hocc]
  · intro h
    cases probe with
    | none => rfl
    | some u =>
      rcases h with h | h
      · exact absurd h (by simp)
      · simp [is_shorts_by_url, h u rfl]
  · cases probe with
    | none => exact Or.inr ⟨rfl, rfl⟩
    | some u =>
      cases hocc : occursIn "/shorts/".data (toLowerL u.data) with
      | true => exact Or.inl ⟨by simp [is_shorts_by_url, hocc], u, rfl, hocc,
          by simp [is_shorts_by_url, hocc]⟩
      | false => exact Or.inr ⟨by simp [is_shorts_by_url, hocc],
          by simp [is_shorts_by_url, hocc]⟩

/-- C5 witness: a successful shorts-redirect probe and a failed probe. -/
theorem C5_witness :
    is_shorts_by_url (some "https://www.youtube.com/shorts/abc") "abc" =
      ("Short", "https://www.youtube.com/shorts/abc")
    ∧ is_shorts_by_url none "abc" = ("Video", "https://www.youtube.com/watch?v=abc") := by
  constructor
  · exact (C5_classifier (some "https://www.youtube.com/shorts/abc") "abc").1
      "https://www.youtube.com/shorts/abc" rfl (by decide)
  · exact (C5_classifier none "abc").2.1 (Or.inl rfl)

/-- C10: time_ago is total; any input that does not parse under the exact
format (the empty string included) is returned unchanged; for parseable
inputs the label is determined solely by the largest nonzero component of the
relativedelta (years, months, days, hours, minutes, in that order) with a
plural s exactly when the component exceeds one, and is "Today" when all
components are zero. -/
theorem C10_time_ago (rd : PyDateTime → PyDateTime → RelDelta) (now : PyDateTime) :
    (∀ s, pyStrptimeZ s = none → time_ago rd now s = s)
    ∧ pyStrptimeZ "" = none
    ∧ (∀ s p, pyStrptimeZ s = some p →
        ((rd now p).years ≠ 0 → time_ago rd now s =
          toString (rd now p).years ++ " year" ++
            (if 1 < (rd now p).years then "s" else "") ++ " ago")
        ∧ ((rd now p).years = 0 → (rd now p).months ≠ 0 → time_ago rd now s =
          toString (rd now p).months ++ " month" ++
            (if 1 < (rd now p).months then "s" else "") ++ " ago")
        ∧ ((rd now p).years = 0 → (rd now p).months = 0 → (rd now p).days ≠ 0 →
          time_ago rd now s =
            toString (rd now p).days ++ " day" ++
              (if 1 < (rd now p).days then "s" else "") ++ " ago")
        ∧ ((rd now p).years = 0 → (rd now p).months = 0 → (rd now p).days = 0 →
          (rd now p).hours ≠ 0 → time_ago rd now s =
            toString (rd now p).hours ++ " hour" ++
              (if 1 < (rd now p).hours then "s" else "") ++ " ago")
        ∧ ((rd now p).years = 0 → (rd now p).months = 0 → (rd now p).days = 0 →
          (rd now p).hours = 0 → (rd now p).minutes ≠ 0 → time_ago rd now s =
            toString (rd now p).minutes ++ " minute" ++
              (if 1 < (rd now p).minutes then "s" else "") ++ " ago")
        ∧ ((rd now p).years = 0 → (rd now p).months = 0 → (rd now p).days = 0 →
          (rd now p).hours = 0 → (rd now p).minutes = 0 →
          time_ago rd now s = "Today")) := by
  refine ⟨?_, by decide, ?_⟩
  · intro s h
    simp [time_ago, h]
  · intro s p h
    refine ⟨?_, ?_, ?_, ?_, ?_, ?_⟩
    · intro h1
      simp only [time_ago, h]
      rw [if_pos h1]
    · intro h1 h2
      simp only [time_ago, h]
      rw [if_neg (not_not_intro h1), if_pos h2]
    · intro h1 h2 h3
      simp only [time_ago, h]
      rw [if_neg (not_not_intro h1), if_neg (not_not_intro h2), if_pos h3]
    · intro h1 h2 h3 h4
      simp only [time_ago, h]
      rw [if_neg (not_not_intro h1), if_neg (not_not_intro h2),
        if_neg (not_not_intro h3), if_pos h4]
    · intro h1 h2 h3 h4 h5
      simp only [time_ago, h]
      rw [if_neg (not_not_intro h1), if_neg (not_not_intro h2),
        if_neg (not_not_intro h3), if_neg (not_not_intro h4), if_pos h5]
    · intro h1 h2 h3 h4 h5
      simp only [time_ago, h]
      rw [if_neg (not_not_intro h1), if_neg (not_not_intro h2),
        if_neg (not_not_intro h3), if_neg (not_not_intro h4), if_neg (not_not_intro h5)]

/-- C10 witness: the fallback on an unparseable string and on the empty
string, a two-day difference, and the all-zero case. -/
theorem C10_witness :
    time_ago rdZero nowSample "garbage" = "garbage"
    ∧ time_ago rdZero nowSample "" = ""
    ∧ time_ago (fun _ _ => ⟨0, 0, 2, 0, 0⟩) nowSample "2025-10-10T00:00:00Z" = "2 days ago"
    ∧ time_ago rdZero nowSample "2026-10-12T00:00:00Z" = "Today" := by
  refine ⟨?_, ?_, ?_, ?_⟩
  · exact (C10_time_ago rdZero nowSample).1 "garbage" (by decide)
  · exact (C10_time_ago rdZero nowSample).1 "" (by decide)
  · have h := ((C10_time_ago (fun _ _ => ⟨0, 0, 2, 0, 0⟩) nowSample).2.2
      "2025-10-10T00:00:00Z" ⟨2025, 10, 10, 0, 0, 0⟩ (by decide)).2.2.1
      (by decide) (by decide) (by decide)
    rw [h]
    decide
  · exact ((C10_time_ago rdZero nowSample).2.2 "2026-10-12T00:00:00Z"
      ⟨2026, 10, 12, 0, 0, 0⟩ (by decide)).2.2.2.2.2
      (by decide) (by decide) (by decide) (by decide) (by decide)

end YT

namespace YT

/-! ## Lemmas about the result collector -/

theorem processIds_length_le (env : Env) (items : List VideoDetail) :
    ∀ (ids : List String) (s v : List Row), s.length ≤ 10 → v.length ≤ 10 →
      (processIds env items ids s v).1.length ≤ 10 ∧
        (processIds env items ids s v).2.length ≤ 10 := by
  intro ids
  induction ids with
  | nil => intro s v hs hv; exact ⟨hs, hv⟩
  | cons vid rest ih =>
    intro s v hs hv
    by_cases hfull : 10 ≤ s.length ∧ 10 ≤ v.length
    · simp only [processIds, if_pos hfull]
      exact ⟨hs, hv⟩
    · simp only [processIds, if_neg hfull]
      cases hd : idToItemFn items vid with
      | none => exact ih s v hs hv
      | some d =>
        simp only []
        by_cases hty : (mkRow env vid d).vtype = "Short"
        · simp only [if_pos hty]
          refine ih _ v ?_ hv
          by_cases h10 : s.length < 10
          · simp only [if_pos h10, List.length_append, List.length_cons, List.length_nil]
            omega
          · simpa only [if_neg h10] using hs
        · simp only [if_neg hty]
          refine ih s _ hs ?_
          by_cases h10 : v.length < 10
          · simp only [if_pos h10, List.length_append, List.length_cons, List.length_nil]
            omega
          · simpa only [if_neg h10] using hv

theorem stepToken_out (sr : SearchResp) (s v : List Row) :
    (stepToken sr s v = .next s v ∧ tokenTruthy sr.nextPageToken = true)
      ∨ (stepToken sr s v = .halt s v ∧ tokenTruthy sr.nextPageToken = false) := by
  unfold stepToken
  cases ht : tokenTruthy sr.nextPageToken with
  | true => exact Or.inl ⟨by rw [if_pos rfl], rfl⟩
  | false => exact Or.inr ⟨by rw [if_neg (by simp)], rfl⟩

/-- Every outcome of a page iteration either keeps the buckets or replaces
them by a processIds result; and a `next` outcome certifies a truthy
continuation token on that page's search response. -/
theorem pageStep_spec (env : Env) (pc1 : Nat) (s v : List Row) :
    ((pageStep env pc1 s v = .halt s v ∨ pageStep env pc1 s v = .next s v)
      ∨ ∃ items vids,
          pageStep env pc1 s v =
              .halt (processIds env items vids s v).1 (processIds env items vids s v).2
            ∨ pageStep env pc1 s v =
              .next (processIds env items vids s v).1 (processIds env items vids s v).2)
    ∧ (∀ s' v', pageStep env pc1 s v = .next s' v' →
        ∃ sr, (env.pages pc1).search = some sr ∧ tokenTruthy sr.nextPageToken = true) := by
  unfold pageStep
  cases hsr : (env.pages pc1).search with
  | none =>
    refine ⟨Or.inl (Or.inl (by simp [pageStepCore])), ?_⟩
    intro s' v' h
    simp [pageStepCore] at h
  | some sr =>
    simp only [pageStepCore]
    by_cases he : sr.isError = true
    · rw [if_pos he]
      refine ⟨Or.inl (Or.inl rfl), ?_⟩
      intro s' v' h
      cases h
    · rw [if_neg he]
      by_cases hi : sr.items.isEmpty = true
      · rw [if_pos hi]
        refine ⟨Or.inl (Or.inl rfl), ?_⟩
        intro s' v' h
        cases h
      · rw [if_neg hi]
        by_cases hvd : (sr.items.filterMap SearchItem.videoId).isEmpty = true
        · rw [if_pos hvd]
          rcases stepToken_out sr s v with ⟨he1, ht⟩ | ⟨he1, ht⟩
          · exact ⟨Or.inl (Or.inr he1), fun s' v' h => ⟨sr, rfl, ht⟩⟩
          · refine ⟨Or.inl (Or.inl he1), ?_⟩
            intro s' v' h
            rw [he1] at h
            cases h
        · rw [if_neg hvd]
          cases hvr : (env.pages pc1).videos with
          | none =>
            refine ⟨Or.inl (Or.inl (by simp [pageStepVideos])), ?_⟩
            intro s' v' h
            simp [pageStepVideos] at h
          | some vr =>
            simp only [pageStepVideos]
            by_cases hve : vr.isError = true
            · rw [if_pos hve]
              refine ⟨Or.inl (Or.inl rfl), ?_⟩
              intro s' v' h
              cases h
            · rw [if_neg hve]
              by_cases hvi : vr.items.isEmpty = true
              · rw [if_pos hvi]
                rcases stepToken_out sr s v with ⟨he1, ht⟩ | ⟨he1, ht⟩
                · exact ⟨Or.inl (Or.inr he1), fun s' v' h => ⟨sr, rfl, ht⟩⟩
                · refine ⟨Or.inl (Or.inl he1), ?_⟩
                  intro s' v' h
                  rw [he1] at h
                  cases h
              · rw [if_neg hvi]
                rcases stepToken_out sr
                    (processIds env vr.items (sr.items.filterMap SearchItem.videoId) s v).1
                    (processIds env vr.items (sr.items.filterMap SearchItem.videoId) s v).2 with
                  ⟨he1, ht⟩ | ⟨he1, ht⟩
                · exact ⟨Or.inr ⟨vr.items, _, Or.inr he1⟩, fun s' v' h => ⟨sr, rfl, ht⟩⟩
                · refine ⟨Or.inr ⟨vr.items, _, Or.inl he1⟩, ?_⟩
                  intro s' v' h
                  rw [he1] at h
                  cases h

theorem pageStep_bound (env : Env) (pc1 : Nat) (s v : List Row)
    (hs : s.length ≤ 10) (hv : v.length ≤ 10) (s' v' : List Row)
    (h : pageStep env pc1 s v = .halt s' v' ∨ pageStep env pc1 s v = .next s' v') :
    s'.length ≤ 10 ∧ v'.length ≤ 10 := by
  rcases (pageStep_spec env pc1 s v).1 with (hsp | hsp) | ⟨items, vids, hsp | hsp⟩ <;>
    rcases h with h | h <;> rw [hsp] at h <;> cases h <;>
      first
        | exact ⟨hs, hv⟩
        | exact processIds_length_le env _ _ s v hs hv

theorem fetchGo_length_le (env : Env) (mp : Nat) :
    ∀ (fuel pc : Nat) (s v : List Row), s.length ≤ 10 → v.length ≤ 10 →
      (fetchGo env mp fuel pc s v).shorts.length ≤ 10 ∧
        (fetchGo env mp fuel pc s v).videos.length ≤ 10 := by
  intro fuel
  induction fuel with
  | zero => intro pc s v hs hv; exact ⟨hs, hv⟩
  | succ f ih =>
    intro pc s v hs hv
    by_cases hg : pc < mp ∧ (s.length < 10 ∨ v.length < 10)
    · simp only [fetchGo, if_pos hg]
      cases hps : pageStep env (pc + 1) s v with
      | halt s' v' =>
        exact pageStep_bound env (pc + 1) s v hs hv s' v' (Or.inl hps)
      | next s' v' =>
        have hb := pageStep_bound env (pc + 1) s v hs hv s' v' (Or.inr hps)
        exact ih (pc + 1) s' v' hb.1 hb.2
    · simp only [fetchGo, if_neg hg]
      exact ⟨hs, hv⟩

theorem addRanksFrom_length (n : Nat) (l : List Row) :
    (addRanksFrom n l).length = l.length := by
  induction l generalizing n with
  | nil => rfl
  | cons r t ih => simp [addRanksFrom, ih]

theorem addRanksFrom_map_rank (n : Nat) (l : List Row) :
    (addRanksFrom n l).map RankedRow.rank = List.range' n l.length := by
  induction l generalizing n with
  | nil => rfl
  | cons r t ih =>
    show n :: (addRanksFrom (n + 1) t).map RankedRow.rank = List.range' n (t.length + 1)
    rw [ih (n + 1)]
    rfl

theorem addRanksFrom_map_data (n : Nat) (l : List Row) :
    (addRanksFrom n l).map RankedRow.data = l := by
  induction l generalizing n with
  | nil => rfl
  | cons r t ih =>
    show r :: (addRanksFrom (n + 1) t).map RankedRow.data = r :: t
    rw [ih (n + 1)]

/-- C1: each returned list holds at most 10 entries; the Rank fields are
exactly the contiguous sequence 1..N for that list; and the ranked lists are
precisely the loop's final truncated lists decorated in append order (ranks
are attached once, after the loop). -/
theorem C1_rank_invariant (env : Env) (kw : String) :
    (fetch_youtube_results_for_keyword env kw).1.length ≤ 10
    ∧ (fetch_youtube_results_for_keyword env kw).2.length ≤ 10
    ∧ (fetch_youtube_results_for_keyword env kw).1.map RankedRow.rank =
        List.range' 1 (fetch_youtube_results_for_keyword env kw).1.length
    ∧ (fetch_youtube_results_for_keyword env kw).2.map RankedRow.rank =
        List.range' 1 (fetch_youtube_results_for_keyword env kw).2.length
    ∧ (pyStripL kw.data ≠ [] →
        (fetch_youtube_results_for_keyword env kw).1.map RankedRow.data =
          (fetchGo env MAX_PAGES MAX_PAGES 0 [] []).shorts
        ∧ (fetch_youtube_results_for_keyword env kw).2.map RankedRow.data =
          (fetchGo env MAX_PAGES MAX_PAGES 0 [] []).videos) := by
  by_cases hb : pyStripL kw.data = []
  · simp [fetch_youtube_results_for_keyword, hb]
  · have hlen := fetchGo_length_le env MAX_PAGES MAX_PAGES 0 [] [] (by simp) (by simp)
    simp only [fetch_youtube_results_for_keyword, if_neg hb]
    refine ⟨?_, ?_, ?_, ?_, fun _ => ⟨addRanksFrom_map_data _ _, addRanksFrom_map_data _ _⟩⟩
    · rw [addRanksFrom_length]
      exact hlen.1
    · rw [addRanksFrom_length]
      exact hlen.2
    · rw [addRanksFrom_map_rank, addRanksFrom_length]
    · rw [addRanksFrom_map_rank, addRanksFrom_length]

/-- C1 witness: the invariant evaluated at a concrete environment. -/
theorem C1_witness :
    (fetch_youtube_results_for_keyword envA "kw").1.length ≤ 10
    ∧ (fetch_youtube_results_for_keyword envA "kw").1.map RankedRow.data =
        (fetchGo envA MAX_PAGES MAX_PAGES 0 [] []).shorts := by
  exact ⟨(C1_rank_invariant envA "kw").1,
    ((C1_rank_invariant envA "kw").2.2.2.2 (by decide)).1⟩

theorem processIds_stop (env : Env) (items : List VideoDetail) (s v : List Row)
    (h : 10 ≤ s.length ∧ 10 ≤ v.length) :
    ∀ ids, processIds env items ids s v = (s, v) := by
  intro ids
  cases ids with
  | nil => rfl
  | cons vid rest => simp only [processIds, if_pos h]

theorem processIds_early_stop (env : Env) (items : List VideoDetail) :
    ∀ (ids1 ids2 : List String) (s v : List Row),
      10 ≤ (processIds env items ids1 s v).1.length →
      10 ≤ (processIds env items ids1 s v).2.length →
      processIds env items (ids1 ++ ids2) s v = processIds env items ids1 s v := by
  intro ids1
  induction ids1 with
  | nil =>
    intro ids2 s v h1 h2
    exact processIds_stop env items s v ⟨h1, h2⟩ ids2
  | cons vid rest ih =>
    intro ids2 s v h1 h2
    by_cases hfull : 10 ≤ s.length ∧ 10 ≤ v.length
    · simp only [List.cons_append, processIds, if_pos hfull]
    · cases hd : idToItemFn items vid with
      | none =>
        have hstep : ∀ ids, processIds env items (vid :: ids) s v =
            processIds env items ids s v := fun ids => by
          simp only [processIds, if_neg hfull, hd]
        rw [List.cons_append, hstep (rest ++ ids2), hstep rest]
        rw [hstep rest] at h1 h2
        exact ih ids2 s v h1 h2
      | some d =>
        by_cases hty : (mkRow env vid d).vtype = "Short"
        · have hstep : ∀ ids, processIds env items (vid :: ids) s v =
              processIds env items ids (if s.length < 10 then s ++ [mkRow env vid d] else s)
                v := fun ids => by
            simp only [processIds, if_neg hfull, hd, if_pos hty]
          rw [List.cons_append, hstep (rest ++ ids2), hstep rest]
          rw [hstep rest] at h1 h2
          exact ih ids2 _ v h1 h2
        · have hstep : ∀ ids, processIds env items (vid :: ids) s v =
              processIds env items ids s
                (if v.length < 10 then v ++ [mkRow env vid d] else v) := fun ids => by
            simp only [processIds, if_neg hfull, hd, if_neg hty]
          rw [List.cons_append, hstep (rest ++ ids2), hstep rest]
          rw [hstep rest] at h1 h2
          exact ih ids2 s _ h1 h2

theorem fetchGo_pages_gt (env : Env) (mp : Nat) :
    ∀ (fuel pc : Nat) (s v : List Row) (p : Nat),
      p ∈ (fetchGo env mp fuel pc s v).pagesFetched → pc < p := by
  intro fuel
  induction fuel with
  | zero => intro pc s v p hp; exact absurd hp (List.not_mem_nil p)
  | succ f ih =>
    intro pc s v p hp
    by_cases hg : pc < mp ∧ (s.length < 10 ∨ v.length < 10)
    · simp only [fetchGo, if_pos hg] at hp
      cases hps : pageStep env (pc + 1) s v with
      | halt s' v' =>
        rw [hps] at hp
        simp only [List.mem_singleton] at hp
        omega
      | next s' v' =>
        rw [hps] at hp
        simp only [List.mem_cons] at hp
        rcases hp with rfl | hp
        · omega
        · have := ih (pc + 1) s' v' p hp
          omega
    · simp only [fetchGo, if_neg hg] at hp
      exact absurd hp (List.not_mem_nil p)

theorem pageStep_next_token (env : Env) (n : Nat) (s v s' v' : List Row)
    (h : pageStep env n s v = .next s' v') :
    ∃ sr, (env.pages n).search = some sr ∧ tokenTruthy sr.nextPageToken = true :=
  (pageStep_spec env n s v).2 s' v' h

theorem fetchGo_consecutive (env : Env) (mp : Nat) :
    ∀ (fuel pc : Nat) (s v : List Row) (p : Nat),
      p ∈ (fetchGo env mp fuel pc s v).pagesFetched →
      (p + 1) ∈ (fetchGo env mp fuel pc s v).pagesFetched →
      ∃ sr, (env.pages p).search = some sr ∧ tokenTruthy sr.nextPageToken = true := by
  intro fuel
  induction fuel with
  | zero => intro pc s v p hp _; exact absurd hp (List.not_mem_nil p)
  | succ f ih =>
    intro pc s v p hp hp1
    by_cases hg : pc < mp ∧ (s.length < 10 ∨ v.length < 10)
    · simp only [fetchGo, if_pos hg] at hp hp1
      cases hps : pageStep env (pc + 1) s v with
      | halt s' v' =>
        rw [hps] at hp hp1
        simp only [List.mem_singleton] at hp hp1
        omega
      | next s' v' =>
        rw [hps] at hp hp1
        simp only [List.mem_cons] at hp hp1
        rcases hp with rfl | hp
        · exact pageStep_next_token env (pc + 1) s v s' v' hps
        · rcases hp1 with he | hp1
          · have := fetchGo_pages_gt env mp f (pc + 1) s' v' p hp
            omega
          · exact ih (pc + 1) s' v' p hp hp1
    · simp only [fetchGo, if_neg hg] at hp
      exact absurd hp (List.not_mem_nil p)

theorem fetchGo_pages_ne (env : Env) (mp fuel pc : Nat) (s v : List Row) (hf : 0 < fuel) :
    (fetchGo env mp fuel pc s v).pagesFetched ≠ [] ↔
      (pc < mp ∧ (s.length < 10 ∨ v.length < 10)) := by
  cases fuel with
  | zero => omega
  | succ f =>
    constructor
    · intro h
      by_contra hg
      simp only [fetchGo, if_neg hg] at h
      exact h rfl
    · intro hg
      simp only [fetchGo, if_pos hg]
      cases hps : pageStep env (pc + 1) s v with
      | halt s' v' => simp
      | next s' v' => simp

/-- C2: the page loop issues a further search call exactly when
pages_checked < MAX_PAGES and at least one bucket holds fewer than 10
entries; within a page, scanning stops contributing as soon as both buckets
hold 10; and two consecutive pages are fetched only when the earlier page's
search response carried a truthy continuation token. -/
theorem C2_page_loop (env : Env) (mp fuel pc : Nat) (s v : List Row) :
    (0 < fuel →
      ((fetchGo env mp fuel pc s v).pagesFetched ≠ [] ↔
        (pc < mp ∧ (s.length < 10 ∨ v.length < 10))))
    ∧ (∀ (items : List VideoDetail) (ids1 ids2 : List String) (s1 v1 : List Row),
        10 ≤ (processIds env items ids1 s1 v1).1.length →
        10 ≤ (processIds env items ids1 s1 v1).2.length →
        processIds env items (ids1 ++ ids2) s1 v1 = processIds env items ids1 s1 v1)
    ∧ (∀ p, p ∈ (fetchGo env mp fuel pc s v).pagesFetched →
        (p + 1) ∈ (fetchGo env mp fuel pc s v).pagesFetched →
        ∃ sr, (env.pages p).search = some sr ∧ tokenTruthy sr.nextPageToken = true) :=
  ⟨fun hf => fetchGo_pages_ne env mp fuel pc s v hf,
   fun items ids1 ids2 s1 v1 h1 h2 => processIds_early_stop env items ids1 ids2 s1 v1 h1 h2,
   fun p hp hp1 => fetchGo_consecutive env mp fuel pc s v p hp hp1⟩

/-- C2 witness: the loop-guard characterisation and the early-stop equation
evaluated at concrete inputs. -/
theorem C2_witness :
    (fetchGo envA 2 2 0 [] []).pagesFetched ≠ []
    ∧ processIds envA [] ([] ++ ["x"]) rows10 rows10 = processIds envA [] [] rows10 rows10 := by
  constructor
  · exact ((C2_page_loop envA 2 2 0 [] []).1 (by decide)).mpr (by decide)
  · exact (C2_page_loop envA 2 2 0 [] []).2.1 [] [] ["x"] rows10 rows10
      (by decide) (by decide)

/-- C7 counterexample: with a provider page carrying the same id twice, the
union of the returned lists holds two entries with the same recovered video
id, so the collection does not deduplicate. -/
theorem C7_cex :
    ¬ (((fetch_youtube_results_for_keyword envDup "kw").1 ++
        (fetch_youtube_results_for_keyword envDup "kw").2).filterMap
          (fun e => extractS e.data.videoURL)).Nodup := by
  decide

/-- C7 (amended): the per-keyword collection performs no deduplication: each
occurrence of an id in the processed search order (here: twice on one page)
yields its own appended entry, subject only to the 10-per-bucket caps. -/
theorem C7_amended (env : Env) (items : List VideoDetail) (vid : String) (d : VideoDetail)
    (hd : idToItemFn items vid = some d) (hp : env.probe vid = none) :
    processIds env items [vid, vid] [] [] = ([], [mkRow env vid d, mkRow env vid d]) := by
  have hty : (mkRow env vid d).vtype = "Video" := by
    simp [mkRow, is_shorts_by_url, hp]
  have hne : ¬ (mkRow env vid d).vtype = "Short" := by
    rw [hty]
    decide
  simp only [processIds, hd, if_neg hne]
  norm_num

/-- C7 witness: the amended no-deduplication statement at the duplicate-id
environment. -/
theorem C7_witness :
    processIds envDup [⟨"aaa", some "T1", some "C1", some "", some "5", none⟩] ["aaa", "aaa"]
        [] [] =
      ([], [mkRow envDup "aaa" ⟨"aaa", some "T1", some "C1", some "", some "5", none⟩,
            mkRow envDup "aaa" ⟨"aaa", some "T1", some "C1", some "", some "5", none⟩]) := by
  exact C7_amended envDup _ "aaa" _ (by decide) rfl

end YT

namespace YT

theorem matchKeep_iff (ids : List String) (cU : Nat) (hnil : "" ∉ ids) (row : List String) :
    matchKeep ids cU row = true ↔
      ∃ v, extractS (cellD row cU) = some v ∧ v ∈ ids := by
  unfold matchKeep
  cases hex : extractS (cellD row cU) with
  | none => simp
  | some v =>
    simp only [decide_eq_true_eq, Option.some.injEq]
    constructor
    · rintro ⟨hne, hm⟩
      exact ⟨v, rfl, hm⟩
    · rintro ⟨w, rfl, hm⟩
      exact ⟨fun e => hnil (e ▸ hm), hm⟩

theorem collectLoop_eq_filterMap (ids : List String) (dateStr typeLabel : String)
    (cK cR cT cC cU : Nat) :
    ∀ rows, collectLoop ids dateStr typeLabel cK cR cT cC cU rows =
      (rows.filter (matchKeep ids cU)).map (mkMatch dateStr typeLabel cK cR cT cC cU) := by
  intro rows
  induction rows with
  | nil => rfl
  | cons row rest ih =>
    by_cases hrow : row = []
    · subst hrow
      simp only [collectLoop, if_pos rfl]
      rw [ih, List.filter_cons]
      rw [show matchKeep ids cU [] = false from rfl]
      simp
    · simp only [collectLoop, if_neg hrow]
      cases hex : extractS (cellD row cU) with
      | none =>
        have hk : matchKeep ids cU row = false := by
          unfold matchKeep
          rw [hex]
        rw [ih]
        simp only [List.filter_cons, hk]
        simp
      | some vid =>
        by_cases hskip : vid = "" ∨ vid ∉ ids
        · have hk : matchKeep ids cU row = false := by
            unfold matchKeep
            rw [hex]
            rcases hskip with h | h
            · simp [h]
            · simp [h]
          rw [ih]
          simp only [List.filter_cons, hk]
          simp [hskip]
        · push_neg at hskip
          have hk : matchKeep ids cU row = true := by
            unfold matchKeep
            rw [hex]
            simp [hskip.1, hskip.2]
          rw [ih]
          simp only [List.filter_cons, hk]
          simp [hskip.1, hskip.2]

/-- C8: the allow-list filter is a subset operation: the emitted rows are
exactly the image, in order, of the input rows whose URL cell yields a
tracked video id; a row is emitted if and only if its recovered id is in the
tracked set, and every emitted row is built from exactly one input row. -/
theorem C8_allowlist (values : List (List String)) (typeLabel dateStr : String)
    (ids : List String) (hnil : "" ∉ ids) (hlen : 2 ≤ values.length)
    (hcols : ∀ r ∈ requiredMatchCols, (colLookup (values.headD []) r).isSome = true) :
    (collect_matches values typeLabel dateStr ids).2 =
      ((values.drop 1).filter
          (matchKeep ids ((colLookup (values.headD []) "Video URL").getD 0))).map
        (mkMatch dateStr typeLabel
          ((colLookup (values.headD []) "Keyword").getD 0)
          ((colLookup (values.headD []) "Rank").getD 0)
          ((colLookup (values.headD []) "Title").getD 0)
          ((colLookup (values.headD []) "Channel").getD 0)
          ((colLookup (values.headD []) "Video URL").getD 0))
    ∧ ∀ m, m ∈ (collect_matches values typeLabel dateStr ids).2 ↔
        ∃ row, row ∈ values.drop 1 ∧
          (∃ v, extractS (cellD row ((colLookup (values.headD []) "Video URL").getD 0)) =
              some v ∧ v ∈ ids)
          ∧ m = mkMatch dateStr typeLabel
              ((colLookup (values.headD []) "Keyword").getD 0)
              ((colLookup (values.headD []) "Rank").getD 0)
              ((colLookup (values.headD []) "Title").getD 0)
              ((colLookup (values.headD []) "Channel").getD 0)
              ((colLookup (values.headD []) "Video URL").getD 0) row := by
  have hfind : requiredMatchCols.find? (fun r => (colLookup (values.headD []) r).isNone) =
      none := by
    rw [List.find?_eq_none]
    intro r hr
    intro hcontra
    have h2 := hcols r hr
    cases hcol : colLookup (values.headD []) r with
    | none =>
      rw [hcol] at h2
      simp at h2
    | some i =>
      rw [hcol] at hcontra
      simp at hcontra
  have heq : (collect_matches values typeLabel dateStr ids).2 =
      collectLoop ids dateStr typeLabel
        ((colLookup (values.headD []) "Keyword").getD 0)
        ((colLookup (values.headD []) "Rank").getD 0)
        ((colLookup (values.headD []) "Title").getD 0)
        ((colLookup (values.headD []) "Channel").getD 0)
        ((colLookup (values.headD []) "Video URL").getD 0) (values.drop 1) := by
    simp only [collect_matches]
    rw [if_neg (by omega), hfind]
  constructor
  · rw [heq]
    exact collectLoop_eq_filterMap ids dateStr typeLabel _ _ _ _ _ (values.drop 1)
  · intro m
    rw [heq, collectLoop_eq_filterMap ids dateStr typeLabel _ _ _ _ _ (values.drop 1)]
    simp only [List.mem_map, List.mem_filter]
    constructor
    · rintro ⟨row, ⟨hmem, hkeep⟩, rfl⟩
      exact ⟨row, hmem,
        (matchKeep_iff ids _ hnil row).mp hkeep, rfl⟩
    · rintro ⟨row, hmem, hv, rfl⟩
      exact ⟨row, ⟨hmem, (matchKeep_iff ids _ hnil row).mpr hv⟩, rfl⟩

/-- C8 witness: the filter characterisation at a concrete per-run tab. -/
theorem C8_witness :
    (collect_matches tblMatch "Video" "2024-01-02" ["aaa", "ccc"]).2 =
      ((tblMatch.drop 1).filter
          (matchKeep ["aaa", "ccc"] ((colLookup (tblMatch.headD []) "Video URL").getD 0))).map
        (mkMatch "2024-01-02" "Video"
          ((colLookup (tblMatch.headD []) "Keyword").getD 0)
          ((colLookup (tblMatch.headD []) "Rank").getD 0)
          ((colLookup (tblMatch.headD []) "Title").getD 0)
          ((colLookup (tblMatch.headD []) "Channel").getD 0)
          ((colLookup (tblMatch.headD []) "Video URL").getD 0)) := by
  exact (C8_allowlist tblMatch "Video" "2024-01-02" ["aaa", "ccc"]
    (by decide) (by decide) (by decide)).1

end YT

namespace YT

/-! ## Lemmas about the movement maps and join -/

theorem dictFind_cons (k' : MKey) (t : MRow) (rest : List (MKey × MRow)) (k : MKey) :
    dictFind ((k', t) :: rest) k = if k' = k then some t else dictFind rest k := by
  unfold dictFind
  by_cases h : k' = k
  · rw [List.find?_cons_of_pos _ (by simp [h]), if_pos h]
    rfl
  · rw [List.find?_cons_of_neg _ (by simp [h]), if_neg h]

theorem mem_keys_of_dictFind (m : List (MKey × MRow)) (k : MKey) (v : MRow)
    (h : dictFind m k = some v) : k ∈ m.map Prod.fst := by
  unfold dictFind at h
  cases hf : m.find? (fun p => decide (p.1 = k)) with
  | none => rw [hf] at h; cases h
  | some pr =>
    rw [hf] at h
    have h1 := List.find?_some hf
    have h2 := List.mem_of_find?_eq_some hf
    simp only [decide_eq_true_eq] at h1
    exact h1 ▸ List.mem_map_of_mem Prod.fst h2

theorem dictInsert_keys_nodup (k : MKey) (v : MRow) (m : List (MKey × MRow))
    (h : (m.map Prod.fst).Nodup) : ((dictInsert k v m).map Prod.fst).Nodup := by
  unfold dictInsert
  by_cases ha : m.any (fun p => decide (p.1 = k)) = true
  · rw [if_pos ha]
    have he : (m.map (fun p => if p.1 = k then (k, v) else p)).map Prod.fst =
        m.map Prod.fst := by
      rw [List.map_map]
      apply List.map_congr_left
      intro p hp
      by_cases hk : p.1 = k
      · simp [hk]
      · simp [hk]
    rw [he]
    exact h
  · rw [if_neg ha, List.map_append]
    rw [List.nodup_append]
    refine ⟨h, by simp, ?_⟩
    intro x hx hx2
    simp only [List.map_cons, List.map_nil, List.mem_singleton] at hx2
    subst hx2
    rcases List.mem_map.mp hx with ⟨p, hp, hpk⟩
    exact ha (List.any_eq_true.mpr ⟨p, hp, by simp [hpk]⟩)

theorem buildMapsE_nodup (col : String → Option Nat) (dateStr prevDate : String) :
    ∀ (rows : List (List String)) (tm pm tm' pm' : List (MKey × MRow)),
      (tm.map Prod.fst).Nodup → (pm.map Prod.fst).Nodup →
      buildMapsE col dateStr prevDate tm pm rows = .ok (tm', pm') →
      (tm'.map Prod.fst).Nodup ∧ (pm'.map Prod.fst).Nodup := by
  intro rows
  induction rows with
  | nil =>
    intro tm pm tm' pm' h1 h2 h
    cases h
    exact ⟨h1, h2⟩
  | cons r rs ih =>
    intro tm pm tm' pm' h1 h2 h
    cases hx : rowKeyItemE col r with
    | error e =>
      simp only [buildMapsE, hx] at h
      cases h
    | ok x =>
      simp only [buildMapsE, hx] at h
      refine ih _ _ tm' pm' ?_ ?_ h
      · by_cases hd : x.1 = dateStr
        · rw [if_pos hd]
          exact dictInsert_keys_nodup _ _ tm h1
        · rw [if_neg hd]
          exact h1
      · by_cases hd : x.1 = prevDate
        · rw [if_pos hd]
          exact dictInsert_keys_nodup _ _ pm h2
        · rw [if_neg hd]
          exact h2

theorem moveKey_mkMove (prevDate : String) (k : MKey) (t p : MRow) :
    moveKey (mkMove prevDate k t p) = k := rfl

theorem joinMovement_prevDate (pm : List (MKey × MRow)) (pd : String) :
    ∀ tm mr, mr ∈ joinMovement pm pd tm → mr.prevDate = pd := by
  intro tm
  induction tm with
  | nil => intro mr h; exact absurd h (List.not_mem_nil mr)
  | cons e rest ih =>
    intro mr h
    obtain ⟨k, t⟩ := e
    cases hf : dictFind pm k with
    | none =>
      simp only [joinMovement, hf] at h
      exact ih mr h
    | some p =>
      simp only [joinMovement, hf, List.mem_cons] at h
      rcases h with rfl | h
      · rfl
      · exact ih mr h

theorem joinMovement_spec (pm : List (MKey × MRow)) (pd : String) :
    ∀ tm, (tm.map Prod.fst).Nodup →
      (∀ k, (∃ mr, mr ∈ joinMovement pm pd tm ∧ moveKey mr = k) ↔
        ((dictFind tm k).isSome = true ∧ (dictFind pm k).isSome = true))
      ∧ (∀ mr, mr ∈ joinMovement pm pd tm →
          ∃ t p, dictFind tm (moveKey mr) = some t ∧ dictFind pm (moveKey mr) = some p ∧
            mr = mkMove pd (moveKey mr) t p)
      ∧ ((joinMovement pm pd tm).map moveKey).Nodup := by
  intro tm
  induction tm with
  | nil =>
    intro hnd
    refine ⟨?_, ?_, by simp [joinMovement]⟩
    · intro k
      simp [joinMovement, dictFind]
    · intro mr h
      exact absurd h (List.not_mem_nil mr)
  | cons e rest ih =>
    intro hnd
    obtain ⟨k', t⟩ := e
    have hk'nm : k' ∉ rest.map Prod.fst := by
      simp only [List.map_cons, List.nodup_cons] at hnd
      exact hnd.1
    have hrest := ih (by simp only [List.map_cons, List.nodup_cons] at hnd; exact hnd.2)
    cases hf : dictFind pm k' with
    | none =>
      refine ⟨?_, ?_, ?_⟩
      · intro k
        simp only [joinMovement, hf]
        rw [hrest.1 k, dictFind_cons]
        by_cases hk : k' = k
        · subst hk
          rw [if_pos rfl, hf]
          simp
        · rw [if_neg hk]
      · intro mr hmr
        simp only [joinMovement, hf] at hmr
        obtain ⟨t2, p2, ht2, hp2, heq⟩ := hrest.2.1 mr hmr
        refine ⟨t2, p2, ?_, hp2, heq⟩
        rw [dictFind_cons, if_neg ?_]
        · exact ht2
        · intro hk
          exact hk'nm (hk ▸ mem_keys_of_dictFind rest (moveKey mr) t2 ht2)
      · simp only [joinMovement, hf]
        exact hrest.2.2
    | some p =>
      refine ⟨?_, ?_, ?_⟩
      · intro k
        simp only [joinMovement, hf]
        rw [dictFind_cons]
        by_cases hk : k' = k
        · subst hk
          rw [if_pos rfl]
          constructor
          · intro _
            simp [hf]
          · intro _
            exact ⟨mkMove pd k' t p, List.mem_cons_self _ _, moveKey_mkMove pd k' t p⟩
        · rw [if_neg hk]
          rw [← hrest.1 k]
          constructor
          · rintro ⟨mr, hmr, hkey⟩
            rcases List.mem_cons.mp hmr with rfl | hmr
            · rw [moveKey_mkMove] at hkey
              exact absurd hkey hk
            · exact ⟨mr, hmr, hkey⟩
          · rintro ⟨mr, hmr, hkey⟩
            exact ⟨mr, List.mem_cons_of_mem _ hmr, hkey⟩
      · intro mr hmr
        simp only [joinMovement, hf, List.mem_cons] at hmr
        rcases hmr with rfl | hmr
        · refine ⟨t, p, ?_, ?_, ?_⟩
          · rw [moveKey_mkMove, dictFind_cons, if_pos rfl]
          · rw [moveKey_mkMove]
            exact hf
          · rw [moveKey_mkMove]
        · obtain ⟨t2, p2, ht2, hp2, heq⟩ := hrest.2.1 mr hmr
          refine ⟨t2, p2, ?_, hp2, heq⟩
          rw [dictFind_cons, if_neg ?_]
          · exact ht2
          · intro hk
            exact hk'nm (hk ▸ mem_keys_of_dictFind rest (moveKey mr) t2 ht2)
      · simp only [joinMovement, hf, List.map_cons]
        rw [List.nodup_cons]
        constructor
        · intro hmem
          rcases List.mem_map.mp hmem with ⟨mr, hmr, hkey⟩
          obtain ⟨t2, p2, ht2, hp2, heq⟩ := hrest.2.1 mr hmr
          rw [moveKey_mkMove] at hkey
          exact hk'nm (hkey ▸ mem_keys_of_dictFind rest (moveKey mr) t2 ht2)
        · exact hrest.2.2

/-- C3: the movement builder is a strict inner join: a row is emitted for a
(keyword, type, url) key exactly when the key is in both today's map and the
previous day's map; each emitted row's rank change is int(prevRank) minus
int(todayRank), with the empty sentinel (none) when either parse fails; and
one row per key (no duplicates). -/
theorem C3_inner_join (col : String → Option Nat) (dateStr prevDate : String)
    (rows : List (List String)) (tm pm : List (MKey × MRow))
    (h : buildMapsE col dateStr prevDate [] [] rows = .ok (tm, pm)) :
    (∀ k, (∃ mr, mr ∈ joinMovement pm prevDate tm ∧ moveKey mr = k) ↔
        ((dictFind tm k).isSome = true ∧ (dictFind pm k).isSome = true))
    ∧ (∀ mr, mr ∈ joinMovement pm prevDate tm →
        ∀ t p, dictFind tm (moveKey mr) = some t → dictFind pm (moveKey mr) = some p →
          mr.rankChange = (match pyInt p.rank, pyInt t.rank with
            | some a, some b => some (a - b)
            | _, _ => none))
    ∧ ((joinMovement pm prevDate tm).map moveKey).Nodup := by
  have hnd := buildMapsE_nodup col dateStr prevDate rows [] [] tm pm (by simp) (by simp) h
  have hspec := joinMovement_spec pm prevDate tm hnd.1
  refine ⟨hspec.1, ?_, hspec.2.2⟩
  intro mr hmr t p ht hp
  obtain ⟨t2, p2, ht2, hp2, heq⟩ := hspec.2.1 mr hmr
  rw [ht] at ht2
  rw [hp] at hp2
  cases ht2
  cases hp2
  rw [heq]
  rfl

/-- C3 witness: the join properties at the concrete two-day table. -/
theorem C3_witness :
    ((joinMovement pmC "2024-01-01" tmC).map moveKey).Nodup ∧
      (∃ mr, mr ∈ joinMovement pmC "2024-01-01" tmC ∧
        moveKey mr = ("kw", "Video", "https://www.youtube.com/watch?v=aaa")) := by
  have h := C3_inner_join (colLookup moveHeader) "2024-01-02" "2024-01-01"
    (tblMove.drop 1) tmC pmC (by rfl)
  exact ⟨h.2.2, (h.1 ("kw", "Video", "https://www.youtube.com/watch?v=aaa")).mpr
    (by decide)⟩

end YT

namespace YT

/-! ## Lemmas about the sorted date list -/

theorem lexLe_iff_lex (as bs : List Char) :
    lexLe as bs = true ↔ (List.Lex (· < ·) as bs ∨ as = bs) := by
  induction as generalizing bs with
  | nil =>
    cases bs with
    | nil => simp [lexLe]
    | cons b bs2 => simp [lexLe, List.Lex.nil]
  | cons a as2 ih =>
    cases bs with
    | nil =>
      simp only [lexLe]
      constructor
      · intro h
        exact absurd h (by simp)
      · rintro (h | h)
        · cases h
        · cases h
    | cons b bs2 =>
      by_cases hab : a < b
      · simp only [lexLe, if_pos hab]
        constructor
        · intro _
          exact Or.inl (List.Lex.rel hab)
        · intro _
          trivial
      · by_cases heq : a = b
        · subst heq
          simp only [lexLe, if_neg hab, eq_self_iff_true, if_true]
          rw [ih bs2]
          constructor
          · rintro (h | rfl)
            · exact Or.inl (List.Lex.cons h)
            · exact Or.inr rfl
          · rintro (h | heq2)
            · cases h with
              | rel hr => exact absurd hr (lt_irrefl a)
              | cons ht => exact Or.inl ht
            · injection heq2 with h1 h2
              exact Or.inr h2
        · have hba : b < a := by
            rcases lt_trichotomy a b with h | h | h
            · exact absurd h hab
            · exact absurd h heq
            · exact h
          simp only [lexLe, if_neg hab, if_neg heq]
          constructor
          · intro h
            cases h
          · rintro (h | heq2)
            · cases h with
              | rel hr => exact absurd hr hab
              | cons ht => exact absurd rfl heq
            · injection heq2 with h1 h2
              exact absurd h1 heq

theorem lexLe_iff_le (a b : String) : lexLe a.data b.data = true ↔ a ≤ b := by
  rw [le_iff_lt_or_eq, lexLe_iff_lex]
  constructor
  · rintro (h | h)
    · exact Or.inl (String.lt_iff_toList_lt.mpr h)
    · refine Or.inr ?_
      cases a
      cases b
      cases h
      rfl
  · rintro (h | rfl)
    · exact Or.inl (String.lt_iff_toList_lt.mp h)
    · exact Or.inr rfl

theorem insertLe_perm (a : String) : ∀ l, (insertLe a l).Perm (a :: l) := by
  intro l
  induction l with
  | nil => exact List.Perm.refl _
  | cons b t ih =>
    by_cases h : lexLe a.data b.data = true
    · rw [insertLe, if_pos h]
    · rw [insertLe, if_neg h]
      exact (ih.cons b).trans (List.Perm.swap a b t)

theorem sortStrings_perm (l : List String) : (sortStrings l).Perm l.dedup := by
  unfold sortStrings
  induction l.dedup with
  | nil => exact List.Perm.refl _
  | cons x xs ih =>
    exact (insertLe_perm x (xs.foldr insertLe [])).trans (ih.cons x)

theorem sorted_insertLe (a : String) :
    ∀ l, l.Sorted (· ≤ ·) → (insertLe a l).Sorted (· ≤ ·) := by
  intro l
  induction l with
  | nil => intro _; exact List.sorted_singleton a
  | cons b t ih =>
    intro hsrt
    by_cases h : lexLe a.data b.data = true
    · rw [insertLe, if_pos h, List.sorted_cons]
      refine ⟨?_, hsrt⟩
      intro x hx
      rcases List.mem_cons.mp hx with rfl | hx2
      · exact (lexLe_iff_le a x).mp h
      · exact le_trans ((lexLe_iff_le a b).mp h) (List.rel_of_sorted_cons hsrt x hx2)
    · rw [insertLe, if_neg h, List.sorted_cons]
      constructor
      · intro x hx
        rcases List.mem_cons.mp ((insertLe_perm a t).mem_iff.mp hx) with rfl | hx2
        · exact le_of_not_le (fun hle => h ((lexLe_iff_le x b).mpr hle))
        · exact List.rel_of_sorted_cons hsrt x hx2
      · exact ih (List.sorted_cons.mp hsrt).2

theorem sortStrings_sorted (l : List String) : (sortStrings l).Sorted (· ≤ ·) := by
  unfold sortStrings
  induction l.dedup with
  | nil => simp
  | cons x xs ih => exact sorted_insertLe x (xs.foldr insertLe []) ih

theorem sortStrings_nodup (l : List String) : (sortStrings l).Nodup :=
  ((sortStrings_perm l).symm).nodup (List.nodup_dedup l)

theorem mem_sortStrings (l : List String) (a : String) : a ∈ sortStrings l ↔ a ∈ l :=
  ((sortStrings_perm l).mem_iff).trans (List.mem_dedup)

theorem empty_string_le (s : String) : "" ≤ s :=
  String.le_iff_toList_le.mpr List.nil_le

theorem sorted_lt_of_sorted_nodup (l : List String) (hs : l.Sorted (· ≤ ·))
    (hn : l.Nodup) : l.Sorted (· < ·) :=
  (hs.and hn).imp (fun h => lt_of_le_of_ne h.1 h.2)

theorem sorted_pred_spec (l : List String) (hs : l.Sorted (· ≤ ·)) (hn : l.Nodup)
    (d : String) (hd : d ∈ l) (i : Nat) (hi : List.indexOf d l = i + 1) :
    l.getD i "" ∈ l ∧ l.getD i "" < d ∧ ∀ x ∈ l, x < d → x ≤ l.getD i "" := by
  have hmono := (sorted_lt_of_sorted_nodup l hs hn).get_strictMono
  have hlen : i + 1 < l.length := by
    rw [← hi]
    exact List.indexOf_lt_length.mpr hd
  have hil : i < l.length := by omega
  have hgd : l.getD i "" = l.get ⟨i, hil⟩ := by
    rw [List.getD_eq_getElem?_getD, List.getElem?_eq_getElem hil]
    rfl
  have hdi : l.get ⟨i + 1, hlen⟩ = d := by
    have h2 : l.get ⟨List.indexOf d l, by rw [hi]; exact hlen⟩ = d :=
      List.getElem_indexOf (by rw [hi]; exact hlen)
    have hfin : (⟨List.indexOf d l, by rw [hi]; exact hlen⟩ : Fin l.length) =
        ⟨i + 1, hlen⟩ := Fin.ext hi
    rw [hfin] at h2
    exact h2
  refine ⟨?_, ?_, ?_⟩
  · rw [hgd]
    exact List.get_mem l i hil
  · rw [hgd, ← hdi]
    exact hmono (show (⟨i, hil⟩ : Fin l.length) < ⟨i + 1, hlen⟩ from by
      simp [Fin.lt_def])
  · intro x hx hxd
    obtain ⟨⟨j, hj⟩, hget⟩ := List.mem_iff_get.mp hx
    by_cases hji : j ≤ i
    · rw [hgd, ← hget]
      exact hmono.monotone (show (⟨j, hj⟩ : Fin l.length) ≤ ⟨i, hil⟩ from hji)
    · exfalso
      push_neg at hji
      have hdx : d ≤ x := by
        rw [← hdi, ← hget]
        exact hmono.monotone (show (⟨i + 1, hlen⟩ : Fin l.length) ≤ ⟨j, hj⟩ from by
          simp only [Fin.mk_le_mk]
          omega)
      exact absurd hxd (not_lt.mpr hdx)

theorem indexOf_zero_of_min (l : List String) (hs : l.Sorted (· ≤ ·))
    (d : String) (hd : d ∈ l) (hmin : ∀ x ∈ l, d ≤ x) : List.indexOf d l = 0 := by
  cases l with
  | nil => exact absurd hd (List.not_mem_nil d)
  | cons a t =>
    have had : a = d := by
      rcases List.mem_cons.mp hd with rfl | hmem
      · rfl
      · exact le_antisymm (List.rel_of_sorted_cons hs d hmem) (hmin a (List.mem_cons_self a t))
    subst had
    exact List.indexOf_cons_self a t

/-- C6: with a readable Date column, the movement builder is an informational
no-op (ok result, no rows) whenever todayDate is absent from the distinct
dates of the stored rows or is the earliest of them; and every emitted
movement row carries as prevDate the date immediately preceding todayDate in
the ascending sorted distinct dates. -/
theorem C6_no_predecessor (allValues : List (List String)) (dateStr : String)
    (hlen : 2 ≤ allValues.length) (di : Nat)
    (hdi : colE (colLookup (allValues.headD [])) "Date" = .ok di)
    (dvals : List String)
    (hdv : dateValuesE di (allValues.drop 1) = .ok dvals) :
    (dateStr ∉ sortStrings dvals →
      build_daily_movement_summary allValues dateStr =
        .ok (["Todays date missing in Wakefit_Daily_Ranks."], []))
    ∧ (dateStr ∈ sortStrings dvals → (∀ x ∈ sortStrings dvals, dateStr ≤ x) →
      ∃ msg, build_daily_movement_summary allValues dateStr = .ok ([msg], []))
    ∧ (∀ log mrows, build_daily_movement_summary allValues dateStr = .ok (log, mrows) →
      ∀ mr, mr ∈ mrows →
        mr.prevDate ∈ sortStrings dvals ∧ mr.prevDate < dateStr ∧
          ∀ x ∈ sortStrings dvals, x < dateStr → x ≤ mr.prevDate) := by
  have hred : build_daily_movement_summary allValues dateStr =
      (if dateStr ∉ sortStrings (dvals.filter (fun d2 => d2 != "")) then
        Except.ok (["Todays date missing in Wakefit_Daily_Ranks."], [])
      else if List.indexOf dateStr (sortStrings (dvals.filter (fun d2 => d2 != ""))) = 0 then
        Except.ok (["No previous day to compare with."], [])
      else
        match buildMapsE (colLookup (allValues.headD [])) dateStr
            ((sortStrings (dvals.filter (fun d2 => d2 != ""))).getD
              (List.indexOf dateStr (sortStrings (dvals.filter (fun d2 => d2 != ""))) - 1) "")
            [] [] (allValues.drop 1) with
        | .error e => .error e
        | .ok (tm, pm) =>
          if (joinMovement pm
              ((sortStrings (dvals.filter (fun d2 => d2 != ""))).getD
                (List.indexOf dateStr
                  (sortStrings (dvals.filter (fun d2 => d2 != ""))) - 1) "")
              tm).isEmpty = true then
            Except.ok (["No overlapping videos for movement."], [])
          else
            Except.ok ([],
              joinMovement pm
                ((sortStrings (dvals.filter (fun d2 => d2 != ""))).getD
                  (List.indexOf dateStr
                    (sortStrings (dvals.filter (fun d2 => d2 != ""))) - 1) "")
                tm)) := by
    simp only [build_daily_movement_summary]
    rw [if_neg (by omega)]
    simp only [hdi, hdv]
  refine ⟨?_, ?_, ?_⟩
  · intro hnot
    have h1 : dateStr ∉ sortStrings (dvals.filter (fun d2 => d2 != "")) := by
      intro hmem
      have h2 := (List.mem_filter.mp ((mem_sortStrings _ dateStr).mp hmem)).1
      exact hnot ((mem_sortStrings dvals dateStr).mpr h2)
    rw [hred, if_pos h1]
  · intro hmem hminc
    by_cases hne : dateStr = ""
    · subst hne
      have h1 : "" ∉ sortStrings (dvals.filter (fun d2 => d2 != "")) := by
        intro hc
        simpa using (List.mem_filter.mp ((mem_sortStrings _ "").mp hc)).2
      exact ⟨_, by rw [hred, if_pos h1]⟩
    · have hmc : dateStr ∈ sortStrings (dvals.filter (fun d2 => d2 != "")) :=
        (mem_sortStrings _ dateStr).mpr (List.mem_filter.mpr
          ⟨(mem_sortStrings dvals dateStr).mp hmem, by simpa using hne⟩)
      have hidx : List.indexOf dateStr (sortStrings (dvals.filter (fun d2 => d2 != ""))) =
          0 := by
        refine indexOf_zero_of_min _ (sortStrings_sorted _) dateStr hmc ?_
        intro x hx
        have h2 := (List.mem_filter.mp ((mem_sortStrings _ x).mp hx)).1
        exact hminc x ((mem_sortStrings dvals x).mpr h2)
      exact ⟨_, by rw [hred, if_neg (not_not_intro hmc), if_pos hidx]⟩
  · intro log mrows hres mr hmr
    rw [hred] at hres
    by_cases h1 : dateStr ∉ sortStrings (dvals.filter (fun d2 => d2 != ""))
    · rw [if_pos h1] at hres
      cases hres
      exact absurd hmr (List.not_mem_nil mr)
    · rw [if_neg h1] at hres
      by_cases h2 : List.indexOf dateStr (sortStrings (dvals.filter (fun d2 => d2 != ""))) = 0
      · rw [if_pos h2] at hres
        cases hres
        exact absurd hmr (List.not_mem_nil mr)
      · rw [if_neg h2] at hres
        cases hb : buildMapsE (colLookup (allValues.headD [])) dateStr
            ((sortStrings (dvals.filter (fun d2 => d2 != ""))).getD
              (List.indexOf dateStr (sortStrings (dvals.filter (fun d2 => d2 != ""))) - 1) "")
            [] [] (allValues.drop 1) with
        | error e =>
          simp only [hb] at hres
          cases hres
        | ok tp =>
          obtain ⟨tm, pm⟩ := tp
          simp only [hb] at hres
          by_cases hj : (joinMovement pm
              ((sortStrings (dvals.filter (fun d2 => d2 != ""))).getD
                (List.indexOf dateStr
                  (sortStrings (dvals.filter (fun d2 => d2 != ""))) - 1) "")
              tm).isEmpty = true
          · rw [if_pos hj] at hres
            cases hres
            exact absurd hmr (List.not_mem_nil mr)
          · rw [if_neg hj] at hres
            cases hres
            have hprev := joinMovement_prevDate pm _ tm mr hmr
            have hmemd : dateStr ∈ sortStrings (dvals.filter (fun d2 => d2 != "")) :=
              not_not.mp h1
            have hspec := sorted_pred_spec (sortStrings (dvals.filter (fun d2 => d2 != "")))
              (sortStrings_sorted _) (sortStrings_nodup _) dateStr hmemd
              (List.indexOf dateStr (sortStrings (dvals.filter (fun d2 => d2 != ""))) - 1)
              (by omega)
            rw [hprev]
            refine ⟨?_, hspec.2.1, ?_⟩
            · have h3 := (List.mem_filter.mp ((mem_sortStrings _ _).mp hspec.1)).1
              exact (mem_sortStrings dvals _).mpr h3
            · intro x hx hxlt
              by_cases hxe : x = ""
              · subst hxe
                exact empty_string_le _
              · have hxc : x ∈ sortStrings (dvals.filter (fun d2 => d2 != "")) :=
                  (mem_sortStrings _ x).mpr (List.mem_filter.mpr
                    ⟨(mem_sortStrings dvals x).mp hx, by simpa using hxe⟩)
                exact hspec.2.2 x hxc hxlt

/-- C6 witness: with the earliest stored date as today, the movement builder
is an informational no-op. -/
theorem C6_witness :
    ∃ msg, build_daily_movement_summary tblMove "2024-01-01" = .ok ([msg], []) := by
  exact (C6_no_predecessor tblMove "2024-01-01" (by decide) 0 (by rfl)
    ["2024-01-01", "2024-01-02", "2024-01-02"] (by rfl)).2.1 (by decide)
    (by
      intro x hx
      have hss : sortStrings ["2024-01-01", "2024-01-02", "2024-01-02"] =
          ["2024-01-01", "2024-01-02"] := by rfl
      rw [hss] at hx
      rcases List.mem_cons.mp hx with rfl | hx2
      · exact le_refl _
      · rcases List.mem_cons.mp hx2 with rfl | hx3
        · exact (lexLe_iff_le _ _).mp (by decide)
        · exact absurd hx3 (List.not_mem_nil x))

end YT

namespace YT

/-! ## C9: column checks on the analysis and filter steps -/

/-- C9 counterexample: the movement builder reads a ranks table whose header
lacks the required Likes column, yet it neither halts with a diagnostic naming
Likes nor crashes; it runs to a normal informational exit whose message does
not mention the missing column at all. -/
theorem C9_cex :
    "Likes" ∈ requiredSummaryCols ∧
    "Likes" ∉ tbl9.headD [] ∧
    2 ≤ tbl9.length ∧
    build_daily_movement_summary tbl9 "2024-01-03" =
      .ok (["Todays date missing in Wakefit_Daily_Ranks."], []) ∧
    occursIn "Likes".data "Todays date missing in Wakefit_Daily_Ranks.".data = false :=
  ⟨by decide, by decide, by decide, by rfl, by decide⟩

/-- C9 (amended): the keyword-summary builder and the per-run match filter do
halt with a diagnostic naming a missing required column and emit no rows; the
movement builder performs no column check of its own — a missing Date column
surfaces as an uncaught KeyError exception, and any other missing required
column either aborts the run with an uncaught KeyError when first dereferenced
(as Likes does) or goes entirely unnoticed. -/
theorem C9_amended :
    (∀ (allValues : List (List String)) (dateStr : String),
      2 ≤ allValues.length →
      (∃ r ∈ requiredSummaryCols, colLookup (allValues.headD []) r = none) →
      ∃ r ∈ requiredSummaryCols, colLookup (allValues.headD []) r = none ∧
        build_daily_keyword_summary allValues dateStr =
          .ok (["Required column missing: " ++ r], []))
    ∧ (∀ (values : List (List String)) (typeLabel dateStr : String) (ids : List String),
      2 ≤ values.length →
      (∃ r ∈ requiredMatchCols, colLookup (values.headD []) r = none) →
      ∃ r ∈ requiredMatchCols, colLookup (values.headD []) r = none ∧
        collect_matches values typeLabel dateStr ids =
          (["Column " ++ r ++ " not found, skipping it for Wakefit analysis."], []))
    ∧ (∀ (allValues : List (List String)) (dateStr : String),
      2 ≤ allValues.length →
      colLookup (allValues.headD []) "Date" = none →
      build_daily_movement_summary allValues dateStr = .error "KeyError: Date")
    ∧ build_daily_movement_summary tbl9 "2024-01-02" = .error "KeyError: Likes" := by
  refine ⟨?_, ?_, ?_, ?_⟩
  · intro allValues dateStr hlen hex
    cases hfind : requiredSummaryCols.find?
        (fun r => (colLookup (allValues.headD []) r).isNone) with
    | none =>
      obtain ⟨r, hrmem, hrnone⟩ := hex
      exact absurd (by rw [hrnone]; rfl) (List.find?_eq_none.mp hfind r hrmem)
    | some r =>
      refine ⟨r, List.mem_of_find?_eq_some hfind, ?_, ?_⟩
      · have hp := List.find?_some hfind
        simpa using hp
      · simp only [build_daily_keyword_summary]
        rw [if_neg (by omega), hfind]
  · intro values typeLabel dateStr ids hlen hex
    cases hfind : requiredMatchCols.find?
        (fun r => (colLookup (values.headD []) r).isNone) with
    | none =>
      obtain ⟨r, hrmem, hrnone⟩ := hex
      exact absurd (by rw [hrnone]; rfl) (List.find?_eq_none.mp hfind r hrmem)
    | some r =>
      refine ⟨r, List.mem_of_find?_eq_some hfind, ?_, ?_⟩
      · have hp := List.find?_some hfind
        simpa using hp
      · simp only [collect_matches]
        rw [if_neg (by omega), hfind]
  · intro allValues dateStr hlen hnone
    have hcolE : colE (colLookup (allValues.headD [])) "Date" = .error "KeyError: Date" := by
      simp only [colE, hnone]
      rfl
    simp only [build_daily_movement_summary]
    rw [if_neg (by omega), hcolE]
  · rfl

/-- C9 witness: on a table whose header lacks Likes, the keyword-summary
builder halts with the diagnostic naming Likes and emits no rows. -/
theorem C9_witness :
    ∃ r ∈ requiredSummaryCols, colLookup (tbl9.headD []) r = none ∧
      build_daily_keyword_summary tbl9 "2024-01-02" =
        .ok (["Required column missing: " ++ r], []) :=
  C9_amended.1 tbl9 "2024-01-02" (by decide) ⟨"Likes", by decide, by rfl⟩

end YT
